import Mathlib

/-!
# Verification of the streaming repository-import orchestrator

Shallow embedding of `src/lib/hooks/useImportRepo.svelte.ts`: the import
context, the batched publisher, the NIP-39 identity bridger, the profile
manager, the three streaming fetch→convert→sign→publish pipelines and the
`importRepository` orchestrator.

External collaborators (the provider API, the pure entity→event converters,
the signing primitive, `nip19.decode`) live outside this repository; they are
modelled either as fields of an `Env` record (so theorems quantify over all
provider behaviours) or, where a concrete shape is needed, as definitions
whose doc comments start with `Modelled from the spec:`.

Asynchrony is flattened: within one run all provider calls are sequential
(the source awaits each one), so each stage is a pure state transformer on
the import context.  Rate limiting, retry back-off and cooperative abort are
identity on non-aborted runs and are not needed by any claim, so they are
not modelled.  Instrumentation fields (`published`, `pipelineEvents`,
`fetched*Pages`, `progressCurrents`, `convertedCommentParents`,
`nip39Queries`, `delaysSlept`) record the observable trace of a run; no
source behaviour depends on them.
-/

namespace NostrGitUI

/-- A Nostr event (signed, or a template whose `pubkey`/`id`/`sig` are still empty). -/
structure NostrEvent where
  pubkey : String := ""
  created_at : Int := 0
  kind : Nat := 1
  tags : List (List String) := []
  content : String := ""
  id : String := ""
  sig : String := ""
deriving Repr, DecidableEq

/-- Provider repository metadata (`RepoMetadata`). -/
structure Repo where
  name : String := ""
  fullName : String := ""
deriving Repr, DecidableEq, Inhabited

/-- A provider issue (`GitIssue`), with the fields the import reads. -/
structure Issue where
  number : Nat
  authorLogin : String
  authorAvatarUrl : String := ""
  createdAt : Int := 0
  state : String := "open"
  closedAt : Option Int := none
deriving Repr, DecidableEq

/-- A provider pull request (`GitPullRequest`), with the fields the import reads. -/
structure PullRequest where
  number : Nat
  authorLogin : String
  authorAvatarUrl : String := ""
  createdAt : Int := 0
deriving Repr, DecidableEq

/-- A provider comment (`GitComment`), with the fields the import reads. -/
structure Comment where
  platformCommentId : String
  authorLogin : String
  authorAvatarUrl : String := ""
  createdAt : Int := 0
deriving Repr, DecidableEq

/-- An entry of the bulk `listAllIssueComments` endpoint: a comment plus its
parent number and whether that parent is a pull request. -/
structure BulkComment where
  platformCommentId : String
  authorLogin : String
  authorAvatarUrl : String := ""
  createdAt : Int := 0
  issueNumber : Nat
  isPullRequest : Bool := false
deriving Repr, DecidableEq

/-- A fetched GitHub gist, reduced to what `verifyGitHubGistProof` reads: the
owner login and, per file, the npub string extracted after the fixed NIP-39
verification sentence (`none` when the file contains no such attestation; the
regex mechanics of the extraction are external to the claims). -/
structure Gist where
  ownerLogin : Option String := none
  files : List (Option String) := []
deriving Repr, DecidableEq

/-- The distinguished fatal errors the import can raise. -/
inductive Err where
  | tokenRequired
  | tokenInvalid
  | tokenNoRead
  | forkRequired
  | relaysRequired
  | noRepoMetadata
  | eventIOCannotSignRepo
  | signEventRequired
  | eventIOCannotPublishSigned
  | publishEventRequired
  | statusPublishFailed
  | noStatusSigner
deriving Repr, DecidableEq

/-! ## Association-list maps (the source's `Map` objects, in insertion order) -/

variable {K V : Type} [DecidableEq K]

/-- `Map.get`: the value bound to `k`, if any. -/
def mGet (m : List (K × V)) (k : K) : Option V :=
  (m.find? (fun p => p.1 = k)).map (fun p => p.2)

/-- `Map.has`. -/
def mHas (m : List (K × V)) (k : K) : Bool :=
  (mGet m k).isSome

/-- `Map.set`: overwrite an existing binding in place, else append. -/
def mSet (m : List (K × V)) (k : K) (v : V) : List (K × V) :=
  if mHas m k then m.map (fun p => if p.1 = k then (k, v) else p)
  else m ++ [(k, v)]

/-- The host-provided environment: the provider API handle, the Nostr fetch
capability used by the identity bridger, and the behaviour of the external
converters that the claims quantify over. -/
structure Env where
  tokenValid : Bool := true
  tokenHasRead : Bool := true
  isOwner : Bool := true
  ownershipRepo : Repo := {}
  forkedRepo : Repo := {}
  fullMetadata : Repo := {}
  listIssues : Nat → List Issue := fun _ => []
  listPRs : Nat → List PullRequest := fun _ => []
  hasListPullRequestCommits : Bool := false
  listPullRequestCommits : Nat → Nat → List String := fun _ _ => []
  hasBulkComments : Bool := true
  listAllIssueComments : Nat → List BulkComment := fun _ => []
  listIssueComments : Nat → Nat → List Comment := fun _ _ => []
  listPullRequestComments : Nat → Nat → List Comment := fun _ _ => []
  fetchNostrEvents : String → Option (List NostrEvent) := fun _ => some []
  fetchGist : String → Option Gist := fun _ => none
  decodeNpub : String → Option String := fun _ => none
  statusCountOf : Issue → Nat := fun _ => 1
  eventIOOk : Bool := true

/-- The import session context (`ImportContext`), flattened together with the
parts of `ImportConfig` and of the hook options that the import reads, plus
the instrumentation fields listed in the module doc comment. -/
structure Ctx where
  platform : String := "github"
  owner : String := "o"
  repo : String := "r"
  userPubkey : String := "upk"
  repoAddr : String := ""
  sinceDate : Option Int := none
  relays : List String := []
  mirrorIssues : Bool := false
  mirrorPullRequests : Bool := false
  mirrorComments : Bool := false
  forkRepoCfg : Bool := false
  forkName : String := ""
  batchSize : Nat := 30
  batchDelay : Nat := 250
  hasSignEvent : Bool := true
  hasPublishEvent : Bool := true
  hasEventIo : Bool := false
  hasFetchEvents : Bool := false
  importTimestamp : Int := 3600
  startTimestamp : Int := 0
  currentTimestamp : Int := 0
  finalRepo : Option Repo := none
  userProfiles : List (String × String × String) := []
  profileEvents : List (String × NostrEvent) := []
  bridgedNostrPubkeys : List (String × String) := []
  nip39CheckedKeys : List String := []
  issueEventIdMap : List (Nat × String) := []
  prEventIdMap : List (Nat × String) := []
  issuesPublished : Nat := 0
  prsPublished : Nat := 0
  commentsPublished : Nat := 0
  statusEventsPublished : Nat := 0
  eventQueue : List NostrEvent := []
  published : List NostrEvent := []
  pipelineEvents : List NostrEvent := []
  delaysSlept : Nat := 0
  fetchedIssuePages : List Nat := []
  fetchedPrPages : List Nat := []
  fetchedCommentPages : List Nat := []
  convertedCommentParents : List Nat := []
  progressCurrents : List (Option Nat) := []
  nip39Queries : Nat := 0
deriving Repr, DecidableEq

/-- `updateProgress`: record the `current` value of one progress notification. -/
def progress (ctx : Ctx) (current : Option Nat) : Ctx :=
  { ctx with progressCurrents := ctx.progressCurrents ++ [current] }

/-! ## Batched publisher -/

/-- `flushEventQueue`: snapshot and clear the queue, publish the snapshot in a
best-effort fan-out, then sleep the inter-batch delay; immediate return when
the queue is empty. -/
def flushEventQueue (ctx : Ctx) : Ctx :=
  if ctx.eventQueue = [] then ctx
  else
    { ctx with
      eventQueue := []
      published := ctx.published ++ ctx.eventQueue
      delaysSlept := ctx.delaysSlept + (if ctx.batchDelay > 0 then 1 else 0) }

/-- `publishEventBatched`: append to the queue; flush once the queue reaches
the configured batch size. -/
def publishEventBatched (ctx : Ctx) (e : NostrEvent) : Ctx :=
  let ctx' := { ctx with eventQueue := ctx.eventQueue ++ [e] }
  if ctx.batchSize ≤ ctx'.eventQueue.length then flushEventQueue ctx' else ctx'

/-! ## Identity bridger (NIP-39) and profile manager -/

/-- Modelled from the spec: the external `getProfileMapKey` helper producing
the `platform:username` cache key. -/
def getProfileMapKey (platform username : String) : String :=
  platform ++ ":" ++ username

/-- Case folding (`username.toLowerCase()`), written over the character list
so that it evaluates by kernel reduction. -/
def lowerStr (s : String) : String :=
  String.mk (s.data.map Char.toLower)

/-- Whether a string is empty or whitespace-only (`!token || !token.trim()`),
written over the character list so that it evaluates by kernel reduction. -/
def isBlank (s : String) : Bool :=
  s.data.all (fun c => c.isWhitespace)

/-- The gist-id shape check `^[a-f0-9]\x7b32\x7d$|^[a-zA-Z0-9]+$` (the second
alternative subsumes the first): a non-empty alphanumeric string. -/
def proofFormatValid (proof : String) : Bool :=
  proof ≠ "" && proof.data.all (fun c => c.isAlphanum)

/-- The loop over the gist's files: the first extracted npub, if any. -/
def firstNpub (files : List (Option String)) : Option String :=
  files.findSome? id

/-- `verifyGitHubGistProof`: fetch the gist named by the proof, require its
owner to equal the username case-insensitively, extract the npub after the
verification sentence, decode it and compare with the claimed pubkey.  Any
fetch failure, malformed artifact or mismatch yields `false`. -/
def verifyGitHubGistProof (env : Env) (username proof expectedPubkey : String) : Bool :=
  if !proofFormatValid proof then false
  else
    match env.fetchGist proof with
    | none => false
    | some gist =>
      match gist.ownerLogin with
      | none => false
      | some ownerLogin =>
        if lowerStr ownerLogin ≠ lowerStr username then false
        else
          match firstNpub gist.files with
          | none => false
          | some npub =>
            match env.decodeNpub npub with
            | none => false
            | some verifiedPubkey => verifiedPubkey = expectedPubkey

/-- `events.reduce((a, b) => a.created_at > b.created_at ? a : b)`: the most
recently dated candidate profile. -/
def bestCandidate (e : NostrEvent) (es : List NostrEvent) : NostrEvent :=
  es.foldl (fun a b => if a.created_at > b.created_at then a else b) e

/-- The proof element of the candidate's `["i", identity, proof]` tag;
`none` when the tag or its third element is missing or empty (falsy). -/
def candidateProof (identity : String) (profile : NostrEvent) : Option String :=
  match profile.tags.find? (fun t => t.getD 0 "" = "i" && t.getD 1 "" = identity) with
  | none => none
  | some t => let p := t.getD 2 ""; if p = "" then none else some p

/-- `lookupNip39BridgedPubkey`: consult the positive then the negative cache;
for a fresh GitHub key with a fetch capability, query the proof-event source
(counted in `nip39Queries`), verify the best candidate's gist proof, and
either cache the verified binding or record a negative cache entry. -/
def lookupNip39BridgedPubkey (env : Env) (ctx : Ctx) (platform username : String) :
    Ctx × Option String :=
  let profileKey := getProfileMapKey platform username
  match mGet ctx.bridgedNostrPubkeys profileKey with
  | some pk => (ctx, some pk)
  | none =>
    if ctx.nip39CheckedKeys.contains profileKey then (ctx, none)
    else if platform ≠ "github" then (ctx, none)
    else if !ctx.hasFetchEvents then (ctx, none)
    else
      let identity := "github:" ++ username
      let ctx := { ctx with nip39Queries := ctx.nip39Queries + 1 }
      match env.fetchNostrEvents identity with
      | none =>
        ({ ctx with nip39CheckedKeys := ctx.nip39CheckedKeys ++ [profileKey] }, none)
      | some [] =>
        ({ ctx with nip39CheckedKeys := ctx.nip39CheckedKeys ++ [profileKey] }, none)
      | some (e :: es) =>
        let profile := bestCandidate e es
        match candidateProof identity profile with
        | none =>
          ({ ctx with nip39CheckedKeys := ctx.nip39CheckedKeys ++ [profileKey] }, none)
        | some proof =>
          if verifyGitHubGistProof env username proof profile.pubkey then
            ({ ctx with
                bridgedNostrPubkeys := mSet ctx.bridgedNostrPubkeys profileKey profile.pubkey },
              some profile.pubkey)
          else
            ({ ctx with nip39CheckedKeys := ctx.nip39CheckedKeys ++ [profileKey] }, none)

/-- `addBridgedPTags`: append a weak `["p", pubkey]` reference tag when the
bridged cache holds a 64-character pubkey for the author. -/
def addBridgedPTags (e : NostrEvent) (platform username : String)
    (bridged : List (String × String)) : NostrEvent :=
  match mGet bridged (getProfileMapKey platform username) with
  | none => e
  | some pk => if pk.length = 64 then { e with tags := e.tags ++ [["p", pk]] } else e

/-- Modelled from the spec: the external `generatePlatformUserProfile`, a
deterministic synthetic keypair and kind-0 profile event derived purely from
`(platform, username)`.  Returns `(privkey, pubkey, profileEvent)`. -/
def generatePlatformUserProfile (platform username : String) :
    String × String × NostrEvent :=
  let key := getProfileMapKey platform username
  ("priv-" ++ key, "pub-" ++ key,
    { kind := 0, created_at := 0, content := key, tags := [],
      pubkey := "pub-" ++ key, id := "pid-" ++ key, sig := "s" })

/-- `ensureUserProfile`: no-op when the key already has a profile entry; else
attempt the NIP-39 lookup then record the derived keypair and profile event
(the avatar URL is accepted but, as in the source, unused). -/
def ensureUserProfile (env : Env) (ctx : Ctx) (username avatarUrl : String) : Ctx :=
  let profileKey := getProfileMapKey ctx.platform username
  if mHas ctx.userProfiles profileKey then ctx
  else
    let ctx := (lookupNip39BridgedPubkey env ctx ctx.platform username).1
    let p := generatePlatformUserProfile ctx.platform username
    { ctx with
      userProfiles := mSet ctx.userProfiles profileKey (p.1, p.2.1)
      profileEvents := mSet ctx.profileEvents profileKey p.2.2 }

/-! ## External converters and signing (spec-modelled stand-ins) -/

/-- Modelled from the spec: the external signing primitive `signEvent`
keyed by a raw private key; fills `pubkey`, `id` and `sig` deterministically
and leaves the template's other fields (in particular `created_at`) alone. -/
def signEventM (e : NostrEvent) (privkey : String) : NostrEvent :=
  { e with
    pubkey := "pk-" ++ privkey
    id := "id-" ++ privkey ++ "-" ++ toString e.kind ++ "-" ++ toString e.created_at
    sig := "s" }

/-- Modelled from the spec: the host `onSignEvent` callback signing with the
importing user's own key. -/
def signByUser (ctx : Ctx) (e : NostrEvent) : NostrEvent :=
  { e with
    pubkey := ctx.userPubkey
    id := "uid-" ++ toString e.kind ++ "-" ++ toString e.created_at
    sig := "s" }

/-- Modelled from the spec: the external `convertIssuesToNostrEvents` on a
single issue; a template stamped with the logical counter passed at the call
site, paired with the author's synthetic private key. -/
def convertIssueEvent (ctx : Ctx) (issue : Issue) : NostrEvent × String :=
  let key := getProfileMapKey ctx.platform issue.authorLogin
  let privkey := ((mGet ctx.userProfiles key).map (fun p => p.1)).getD ""
  ({ kind := 1621, created_at := ctx.currentTimestamp,
     content := "issue-" ++ toString issue.number,
     tags := [["a", ctx.repoAddr]] }, privkey)

/-- Modelled from the spec: the external `convertIssueStatusesToEvents`; one
template per status event, stamped with consecutive counter values starting
from the value passed at the call site. -/
def statusTemplates (base : Int) (issueEventId : String) (state : String)
    (repoAddr : String) : Nat → List NostrEvent
  | 0 => []
  | n + 1 =>
    { kind := 1630, created_at := base, content := state,
      tags := [["e", issueEventId], ["a", repoAddr]] }
      :: statusTemplates (base + 1) issueEventId state repoAddr n

/-- The `convertIssueStatusesToEvents` call site: templates for the number of
status events the external converter produces for this issue. -/
def convertIssueStatusEvents (env : Env) (ctx : Ctx) (issueEventId : String)
    (issue : Issue) : List NostrEvent :=
  statusTemplates ctx.currentTimestamp issueEventId issue.state ctx.repoAddr
    (env.statusCountOf issue)

/-- Modelled from the spec: the external `convertPullRequestsToNostrEvents`
on a single pull request (optionally folding in the commit SHAs). -/
def convertPullRequestEvent (ctx : Ctx) (pr : PullRequest) (commits : List String) :
    NostrEvent × String :=
  let key := getProfileMapKey ctx.platform pr.authorLogin
  let privkey := ((mGet ctx.userProfiles key).map (fun p => p.1)).getD ""
  ({ kind := 1617, created_at := ctx.currentTimestamp,
     content := "pr-" ++ toString pr.number ++ "-" ++ toString commits.length,
     tags := [["a", ctx.repoAddr]] }, privkey)

/-- Modelled from the spec: the external `convertCommentsToNostrEvents` on a
single comment; returns the template, the author's synthetic private key and
the platform comment id used for threading. -/
def convertCommentEvent (ctx : Ctx) (parentEventId : String) (authorLogin : String)
    (platformCommentId : String) : NostrEvent × String × String :=
  let key := getProfileMapKey ctx.platform authorLogin
  let privkey := ((mGet ctx.userProfiles key).map (fun p => p.1)).getD ""
  ({ kind := 1111, created_at := ctx.currentTimestamp,
     content := "comment-" ++ platformCommentId,
     tags := [["e", parentEventId]] }, privkey, platformCommentId)

/-- Modelled from the spec: the external `convertRepoToNostrEvent`; the
announcement template built from the final repository metadata and stamped
with the wall-clock import timestamp passed at the call site. -/
def convertRepoToNostrEvent (repo : Repo) (relays : List String)
    (userPubkey : String) (importTimestamp : Int) : NostrEvent :=
  { kind := 30617, created_at := importTimestamp, content := repo.fullName,
    tags := [["relays"] ++ relays, ["p", userPubkey]] }

/-- Modelled from the spec: the external `convertRepoToStateEvent`, likewise
stamped with the wall-clock import timestamp. -/
def convertRepoToStateEvent (repo : Repo) (importTimestamp : Int) : NostrEvent :=
  { kind := 30618, created_at := importTimestamp, content := repo.name, tags := [] }

/-- Record a signed pipeline event in issuance order (instrumentation for the
logical-timestamp invariant; mirrors the per-item sign points of the three
streaming pipelines). -/
def recordPipelineEvent (ctx : Ctx) (e : NostrEvent) : Ctx :=
  { ctx with pipelineEvents := ctx.pipelineEvents ++ [e] }

/-! ## Issues pipeline -/

/-- The client-side since-date filter of the issues page loop. -/
def sinceFilterIssues (sinceDate : Option Int) (l : List Issue) : List Issue :=
  match sinceDate with
  | none => l
  | some d => l.filter (fun i => d ≤ i.createdAt)

/-- The status-event loop of the issues pipeline: sign with `onSignEvent` and
enqueue, or publish through `EventIO` directly, or fail; one counter tick and
one `statusEventsPublished` increment per status event. -/
def publishStatusEvents (env : Env) (ctx : Ctx) : List NostrEvent → Ctx × Option Err
  | [] => (ctx, none)
  | s :: rest =>
    if ctx.hasSignEvent then
      let signed := signByUser ctx s
      let ctx := recordPipelineEvent ctx signed
      let ctx := publishEventBatched ctx signed
      let ctx := { ctx with
        currentTimestamp := ctx.currentTimestamp + 1
        statusEventsPublished := ctx.statusEventsPublished + 1 }
      publishStatusEvents env ctx rest
    else if ctx.hasEventIo then
      if !env.eventIOOk then (ctx, some .statusPublishFailed)
      else
        let signed := signByUser ctx s
        let ctx := recordPipelineEvent ctx signed
        let ctx := { ctx with published := ctx.published ++ [signed] }
        let ctx := { ctx with
          currentTimestamp := ctx.currentTimestamp + 1
          statusEventsPublished := ctx.statusEventsPublished + 1 }
        publishStatusEvents env ctx rest
    else (ctx, some .noStatusSigner)

/-- The per-issue body of the issues page loop up to the status events:
ensure the author profile, convert, attach the bridged reference tag, sign,
enqueue, record the ID mapping and tick the counter.  Returns the updated
context and the signed issue event. -/
def issueCore (env : Env) (ctx : Ctx) (issue : Issue) : Ctx × NostrEvent :=
  let ctx := ensureUserProfile env ctx issue.authorLogin issue.authorAvatarUrl
  let conv := convertIssueEvent ctx issue
  let tmpl := addBridgedPTags conv.1 ctx.platform issue.authorLogin ctx.bridgedNostrPubkeys
  let signed := signEventM tmpl conv.2
  let ctx := recordPipelineEvent ctx signed
  let ctx := publishEventBatched ctx signed
  ({ ctx with
      issueEventIdMap := mSet ctx.issueEventIdMap issue.number signed.id
      currentTimestamp := ctx.currentTimestamp + 1
      issuesPublished := ctx.issuesPublished + 1 }, signed)

/-- Per-issue body of the issues page loop: the core conversion/publish
followed by the generated status events and a progress notification. -/
def processIssue (env : Env) (ctx : Ctx) (issue : Issue) : Ctx × Option Err :=
  let core := issueCore env ctx issue
  let statuses := convertIssueStatusEvents env core.1 core.2.id issue
  match publishStatusEvents env core.1 statuses with
  | (ctx, some e) => (ctx, some e)
  | (ctx, none) => (progress ctx (some ctx.issuesPublished), none)

/-- Process one filtered page of issues, stopping at the first error. -/
def processIssues (env : Env) (ctx : Ctx) : List Issue → Ctx × Option Err
  | [] => (ctx, none)
  | i :: rest =>
    match processIssue env ctx i with
    | (ctx, some e) => (ctx, some e)
    | (ctx, none) => processIssues env ctx rest

/-- The issues page loop: fetch page after page (recording each raw page
length), stop on an empty page, filter by since-date after fetching, and
process each remaining issue. -/
def issuesLoop (env : Env) : Nat → Nat → Ctx → Ctx × Option Err
  | 0, _, ctx => (ctx, none)
  | fuel + 1, page, ctx =>
    let pageIssues := env.listIssues page
    let ctx := { ctx with fetchedIssuePages := ctx.fetchedIssuePages ++ [pageIssues.length] }
    if pageIssues.length = 0 then (ctx, none)
    else
      match processIssues env ctx (sinceFilterIssues ctx.sinceDate pageIssues) with
      | (ctx, some e) => (ctx, some e)
      | (ctx, none) => issuesLoop env fuel (page + 1) ctx

/-- `fetchAndPublishIssuesStreaming`: the page loop from page 1 followed by a
final queue flush. -/
def fetchAndPublishIssuesStreaming (env : Env) (fuel : Nat) (ctx : Ctx) :
    Ctx × Option Err :=
  let ctx := progress ctx none
  match issuesLoop env fuel 1 ctx with
  | (ctx, some e) => (ctx, some e)
  | (ctx, none) => (flushEventQueue ctx, none)

/-! ## Pull-request pipeline -/

/-- The client-side since-date filter of the PR page loop. -/
def sinceFilterPRs (sinceDate : Option Int) (l : List PullRequest) : List PullRequest :=
  match sinceDate with
  | none => l
  | some d => l.filter (fun pr => d ≤ pr.createdAt)

/-- The optional commit-list sub-pagination for one PR: accumulate SHAs page
by page, stopping on a short page. -/
def prCommitsLoop (env : Env) : Nat → Nat → Nat → List String → List String
  | 0, _, _, acc => acc
  | fuel + 1, prNumber, page, acc =>
    let commits := env.listPullRequestCommits prNumber page
    let acc := acc ++ commits
    if commits.length < 100 then acc
    else prCommitsLoop env fuel prNumber (page + 1) acc

/-- Per-PR body of the PR page loop: ensure the author profile, optionally
fetch the commit list, convert, attach the bridged reference tag, sign,
record the ID mapping, enqueue, tick the counter and emit progress. -/
def processPR (env : Env) (fuel : Nat) (ctx : Ctx) (pr : PullRequest) : Ctx :=
  let ctx := ensureUserProfile env ctx pr.authorLogin pr.authorAvatarUrl
  let commits :=
    if env.hasListPullRequestCommits then prCommitsLoop env fuel pr.number 1 [] else []
  let conv := convertPullRequestEvent ctx pr commits
  let tmpl := addBridgedPTags conv.1 ctx.platform pr.authorLogin ctx.bridgedNostrPubkeys
  let signed := signEventM tmpl conv.2
  let ctx := { ctx with prEventIdMap := mSet ctx.prEventIdMap pr.number signed.id }
  let ctx := recordPipelineEvent ctx signed
  let ctx := publishEventBatched ctx signed
  let ctx := { ctx with
    currentTimestamp := ctx.currentTimestamp + 1
    prsPublished := ctx.prsPublished + 1 }
  progress ctx (some ctx.prsPublished)

/-- Process one filtered page of pull requests. -/
def processPRs (env : Env) (fuel : Nat) (ctx : Ctx) : List PullRequest → Ctx
  | [] => ctx
  | pr :: rest => processPRs env fuel (processPR env fuel ctx pr) rest

/-- The PR page loop: fetch a page (recording its raw length), filter by
since-date, stop when the *filtered* page is empty, process the remaining
PRs, and continue only when the raw page was full. -/
def prsLoop (env : Env) : Nat → Nat → Ctx → Ctx
  | 0, _, ctx => ctx
  | fuel + 1, page, ctx =>
    let pagePrs := env.listPRs page
    let ctx := { ctx with fetchedPrPages := ctx.fetchedPrPages ++ [pagePrs.length] }
    let filtered := sinceFilterPRs ctx.sinceDate pagePrs
    if filtered.length = 0 then ctx
    else
      let ctx := processPRs env fuel ctx filtered
      if pagePrs.length < 100 then ctx
      else prsLoop env fuel (page + 1) ctx

/-- `fetchAndPublishPRsStreaming`: the page loop from page 1 followed by a
final queue flush. -/
def fetchAndPublishPRsStreaming (env : Env) (fuel : Nat) (ctx : Ctx) : Ctx :=
  let ctx := progress ctx none
  flushEventQueue (prsLoop env fuel 1 ctx)

/-! ## Comments pipeline -/

/-- The local `commentEventMap` used for threading within the comments
pipeline (cleared per parent in the fallback strategy). -/
abbrev CMap := List (String × String)

/-- Shared tail of both comment strategies once a comment is accepted:
ensure the author profile, record the conversion, attach the bridged tag,
sign, enqueue, thread, tick the counter. -/
def publishOneComment (env : Env) (ctx : Ctx) (cmap : CMap) (parentEventId : String)
    (authorLogin avatarUrl platformCommentId : String) : Ctx × CMap :=
  let ctx := ensureUserProfile env ctx authorLogin avatarUrl
  let conv := convertCommentEvent ctx parentEventId authorLogin platformCommentId
  let tmpl := addBridgedPTags conv.1 ctx.platform authorLogin ctx.bridgedNostrPubkeys
  let signed := signEventM tmpl conv.2.1
  let ctx := recordPipelineEvent ctx signed
  let ctx := publishEventBatched ctx signed
  let cmap := mSet cmap conv.2.2 signed.id
  let ctx := { ctx with
    currentTimestamp := ctx.currentTimestamp + 1
    commentsPublished := ctx.commentsPublished + 1 }
  (ctx, cmap)

/-- Per-comment body of the bulk strategy: skip comments whose parent number
is in neither set or whose parent event ID is missing from the matching map;
otherwise convert (recorded in `convertedCommentParents`) and publish. -/
def processBulkComment (env : Env) (issueNumbers prNumbers : List Nat)
    (st : Ctx × CMap) (c : BulkComment) : Ctx × CMap :=
  let ctx := st.1
  let isPrComment := prNumbers.contains c.issueNumber
  let isIssueComment := issueNumbers.contains c.issueNumber
  if !isPrComment && !isIssueComment then st
  else
    let parentEventId :=
      if isPrComment then mGet ctx.prEventIdMap c.issueNumber
      else mGet ctx.issueEventIdMap c.issueNumber
    match parentEventId with
    | none => st
    | some pid =>
      let ctx := { ctx with
        convertedCommentParents := ctx.convertedCommentParents ++ [c.issueNumber] }
      publishOneComment env ctx st.2 pid c.authorLogin c.authorAvatarUrl c.platformCommentId

/-- The client-side since-date filter of the bulk comments page loop. -/
def sinceFilterBulk (sinceDate : Option Int) (l : List BulkComment) : List BulkComment :=
  match sinceDate with
  | none => l
  | some d => l.filter (fun c => d ≤ c.createdAt)

/-- Process one filtered page of bulk comments. -/
def processBulkComments (env : Env) (issueNumbers prNumbers : List Nat)
    (st : Ctx × CMap) : List BulkComment → Ctx × CMap
  | [] => st
  | c :: rest =>
    processBulkComments env issueNumbers prNumbers
      (processBulkComment env issueNumbers prNumbers st c) rest

/-- The bulk-endpoint page loop: fetch a page (recording its raw length),
stop on an empty page, filter by since-date, process the remainder, emit
progress, and continue only when the raw page was full. -/
def bulkCommentsLoop (env : Env) (issueNumbers prNumbers : List Nat) :
    Nat → Nat → Ctx × CMap → Ctx × CMap
  | 0, _, st => st
  | fuel + 1, page, st =>
    let pageComments := env.listAllIssueComments page
    let ctx := { st.1 with
      fetchedCommentPages := st.1.fetchedCommentPages ++ [pageComments.length] }
    if pageComments.length = 0 then (ctx, st.2)
    else
      let st' := processBulkComments env issueNumbers prNumbers (ctx, st.2)
        (sinceFilterBulk ctx.sinceDate pageComments)
      let st' := (progress st'.1 (some st'.1.commentsPublished), st'.2)
      if pageComments.length < 100 then st'
      else bulkCommentsLoop env issueNumbers prNumbers fuel (page + 1) st'

/-- Per-comment body of the fallback strategy for a single known parent:
skip the comment inside the item loop when it predates the since-date, else
convert (recorded in `convertedCommentParents`) and publish against the
parent's mapped event ID. -/
def processFallbackComment (env : Env) (parentNumber : Nat) (parentEventId : String)
    (st : Ctx × CMap) (c : Comment) : Ctx × CMap :=
  match st.1.sinceDate with
  | some d =>
    if c.createdAt < d then st
    else
      let ctx := { st.1 with
        convertedCommentParents := st.1.convertedCommentParents ++ [parentNumber] }
      publishOneComment env ctx st.2 parentEventId c.authorLogin c.authorAvatarUrl
        c.platformCommentId
  | none =>
    let ctx := { st.1 with
      convertedCommentParents := st.1.convertedCommentParents ++ [parentNumber] }
    publishOneComment env ctx st.2 parentEventId c.authorLogin c.authorAvatarUrl
      c.platformCommentId

/-- One page loop of the fallback strategy for a single known parent: fetch
that parent's comments page by page, publish the ones within the since-date,
and stop on an empty or short page. -/
def fallbackParentLoop (env : Env) (isPR : Bool) (parentNumber : Nat)
    (parentEventId : String) : Nat → Nat → Ctx × CMap → Ctx × CMap
  | 0, _, st => st
  | fuel + 1, page, st =>
    let pageComments :=
      if isPR then env.listPullRequestComments parentNumber page
      else env.listIssueComments parentNumber page
    let ctx := { st.1 with
      fetchedCommentPages := st.1.fetchedCommentPages ++ [pageComments.length] }
    if pageComments.length = 0 then (ctx, st.2)
    else
      let st' := pageComments.foldl
        (processFallbackComment env parentNumber parentEventId) (ctx, st.2)
      if pageComments.length < 100 then st'
      else fallbackParentLoop env isPR parentNumber parentEventId fuel (page + 1) st'

/-- The fallback strategy's outer loop over known parent numbers: skip
parents without a mapped event ID, run the per-parent page loop, and clear
the local threading map after each parent. -/
def fallbackParents (env : Env) (isPR : Bool) (fuel : Nat) (ctx : Ctx) :
    List Nat → Ctx
  | [] => ctx
  | n :: rest =>
    let m := if isPR then ctx.prEventIdMap else ctx.issueEventIdMap
    match mGet m n with
    | none => fallbackParents env isPR fuel ctx rest
    | some eid =>
      let st := fallbackParentLoop env isPR n eid fuel 1 (ctx, [])
      fallbackParents env isPR fuel st.1 rest

/-- `fetchAndPublishCommentsStreaming`: early return when both parent sets
are empty; otherwise the bulk strategy when the endpoint exists, else the
per-parent fallback; each strategy ends with a final queue flush. -/
def fetchAndPublishCommentsStreaming (env : Env) (fuel : Nat) (ctx : Ctx)
    (issueNumbers prNumbers : List Nat) : Ctx :=
  if issueNumbers = [] ∧ prNumbers = [] then ctx
  else
    let ctx := progress ctx none
    if env.hasBulkComments then
      flushEventQueue (bulkCommentsLoop env issueNumbers prNumbers fuel 1 (ctx, [])).1
    else
      let ctx := fallbackParents env false fuel ctx issueNumbers
      let ctx := fallbackParents env true fuel ctx prNumbers
      flushEventQueue ctx

/-! ## Repo events, profile publishing and the orchestrator -/

/-- `publishProfileEvents`: one progress notification and one batched
publish per queued profile event, in insertion order. -/
def publishProfileEvents (ctx : Ctx) : Ctx :=
  let ctx' := progress ctx none
  (ctx.profileEvents.foldl
    (fun (acc : Ctx × Nat) kv =>
      let n := acc.2 + 1
      let c := progress acc.1 (some n)
      (publishEventBatched c kv.2, n))
    (ctx', 0)).1

/-- `convertRepoEvents`: requires resolved metadata and a non-empty relay
list; produces the announcement and state templates. -/
def convertRepoEvents (ctx : Ctx) : Except Err (NostrEvent × NostrEvent) :=
  match ctx.finalRepo with
  | none => .error .noRepoMetadata
  | some repo =>
    if ctx.relays = [] then .error .relaysRequired
    else
      .ok (convertRepoToNostrEvent repo ctx.relays ctx.userPubkey ctx.importTimestamp,
           convertRepoToStateEvent repo ctx.importTimestamp)

/-- `publishRepoEvents`: the repo announcement and state events need their
IDs, so they must be signed by the `onSignEvent` callback (an `EventIO`
alone is rejected with a distinguished error) and published by the
`onPublishEvent` callback. -/
def publishRepoEvents (ctx : Ctx) (ann state : NostrEvent) :
    Except Err (Ctx × NostrEvent × NostrEvent) :=
  if ctx.hasSignEvent then
    let sAnn := signByUser ctx ann
    let sState := signByUser ctx state
    if ctx.hasPublishEvent then
      .ok ({ ctx with published := ctx.published ++ [sAnn, sState] }, sAnn, sState)
    else if ctx.hasEventIo then .error .eventIOCannotPublishSigned
    else .error .publishEventRequired
  else if ctx.hasEventIo then .error .eventIOCannotSignRepo
  else .error .signEventRequired

/-- The per-run inputs of `importRepository`: the token and the
`ImportConfig`/hook options mirrored by the context. -/
structure Cfg where
  token : String := "t"
  platform : String := "github"
  owner : String := "o"
  repo : String := "r"
  userPubkey : String := "upk"
  sinceDate : Option Int := none
  relays : List String := ["wss://relay"]
  mirrorIssues : Bool := false
  mirrorPullRequests : Bool := false
  mirrorComments : Bool := false
  forkRepoCfg : Bool := false
  forkName : String := ""
  batchSize : Nat := 30
  batchDelay : Nat := 250
  hasSignEvent : Bool := true
  hasPublishEvent : Bool := true
  hasEventIo : Bool := false
  hasFetchEvents : Bool := false
  importTimestamp : Int := 3600

/-- The fresh per-run context assembled by `initializeImportContext` and the
orchestrator's context literal. -/
def initCtx (cfg : Cfg) : Ctx :=
  { platform := cfg.platform, owner := cfg.owner, repo := cfg.repo,
    userPubkey := cfg.userPubkey, sinceDate := cfg.sinceDate, relays := cfg.relays,
    mirrorIssues := cfg.mirrorIssues, mirrorPullRequests := cfg.mirrorPullRequests,
    mirrorComments := cfg.mirrorComments, forkRepoCfg := cfg.forkRepoCfg,
    forkName := cfg.forkName, batchSize := cfg.batchSize, batchDelay := cfg.batchDelay,
    hasSignEvent := cfg.hasSignEvent, hasPublishEvent := cfg.hasPublishEvent,
    hasEventIo := cfg.hasEventIo, hasFetchEvents := cfg.hasFetchEvents,
    importTimestamp := cfg.importTimestamp }

/-- The data assembled on success (`ImportResult`). -/
structure ImportResult where
  announcementEvent : NostrEvent
  stateEvent : NostrEvent
  issuesImported : Nat
  commentsImported : Nat
  prsImported : Nat
  profilesCreated : Nat
  repo : Repo
deriving Repr, DecidableEq

/-- The last `/`-separated component of a full name (`split("/").pop()`),
written over the character list so that it evaluates by kernel reduction. -/
def lastSlashComponent (s : String) : String :=
  String.mk ((s.data.reverse.takeWhile (fun c => c ≠ '/')).reverse)

/-- The repo-name computation `finalRepo.fullName.split("/").pop() || finalRepo.name`. -/
def repoNameOf (r : Repo) : String :=
  let last := lastSlashComponent r.fullName
  if last = "" then r.name else last

/-- `importRepository`: the linear orchestration — token check, token/ownership
validation, fork resolution, metadata fetch, counter seeding, repo events,
the three optional streaming pipelines, profile publishing and the final
flush.  Returns the outcome together with the context as of return, whose
instrumentation fields are the run's observable trace. -/
def importRepository (env : Env) (cfg : Cfg) (fuel : Nat) :
    Except Err ImportResult × Ctx :=
  let ctx := initCtx cfg
  if isBlank cfg.token then (.error .tokenRequired, ctx)
  else if !env.tokenValid then (.error .tokenInvalid, ctx)
  else if !env.tokenHasRead then (.error .tokenNoRead, ctx)
  else
    let ctx := { ctx with finalRepo := some env.ownershipRepo }
    if !env.isOwner && !cfg.forkRepoCfg then (.error .forkRequired, ctx)
    else
      let ctx := { ctx with
        finalRepo := some (if env.isOwner then env.ownershipRepo else env.forkedRepo) }
      let ctx := { ctx with
        finalRepo := some (if env.isOwner then env.fullMetadata else env.forkedRepo) }
      let finalRepo := if env.isOwner then env.fullMetadata else env.forkedRepo
      let ctx := { ctx with
        repoAddr := "30617:" ++ cfg.userPubkey ++ ":" ++ repoNameOf finalRepo
        startTimestamp := cfg.importTimestamp - 3600
        currentTimestamp := cfg.importTimestamp - 3600 }
      match convertRepoEvents ctx with
      | .error e => (.error e, ctx)
      | .ok (ann, state) =>
        match publishRepoEvents ctx ann state with
        | .error e => (.error e, ctx)
        | .ok (ctx, sAnn, sState) =>
          let step2 :=
            if cfg.mirrorIssues then fetchAndPublishIssuesStreaming env fuel ctx
            else (ctx, none)
          match step2 with
          | (ctx, some e) => (.error e, ctx)
          | (ctx, none) =>
            let ctx :=
              if cfg.mirrorPullRequests then fetchAndPublishPRsStreaming env fuel ctx
              else ctx
            let ctx :=
              if cfg.mirrorComments then
                fetchAndPublishCommentsStreaming env fuel ctx
                  (ctx.issueEventIdMap.map (fun p => p.1))
                  (ctx.prEventIdMap.map (fun p => p.1))
              else ctx
            let ctx := publishProfileEvents ctx
            let ctx := flushEventQueue ctx
            let ctx := progress ctx none
            (.ok { announcementEvent := sAnn, stateEvent := sState,
                   issuesImported := ctx.issuesPublished,
                   commentsImported := ctx.commentsPublished,
                   prsImported := ctx.prsPublished,
                   profilesCreated := ctx.userProfiles.length,
                   repo := finalRepo }, ctx)

/-- Whether an import outcome is a success. -/
def importOk (r : Except Err ImportResult × Ctx) : Bool :=
  match r.1 with
  | .ok _ => true
  | .error _ => false

/-! ## Association-list lemmas -/

theorem mGet_cons {K V : Type} [DecidableEq K] (p : K × V) (m : List (K × V)) (k : K) :
    mGet (p :: m) k = if p.1 = k then some p.2 else mGet m k := by
  by_cases h : p.1 = k <;> simp [mGet, List.find?, h]

theorem mGet_eq_none_of_not_mem {K V : Type} [DecidableEq K]
    {m : List (K × V)} {k : K} (h : k ∉ m.map Prod.fst) : mGet m k = none := by
  induction m with
  | nil => rfl
  | cons p m ih =>
    simp only [List.map_cons, List.mem_cons] at h
    push_neg at h
    rw [mGet_cons, if_neg (fun hh => h.1 hh.symm)]
    exact ih h.2

theorem mHas_true_iff_mem {K V : Type} [DecidableEq K] (m : List (K × V)) (k : K) :
    mHas m k = true ↔ k ∈ m.map Prod.fst := by
  induction m with
  | nil => simp [mHas, mGet]
  | cons p m ih =>
    by_cases h : p.1 = k
    · simp [mHas, mGet_cons, h]
    · simp only [mHas, mGet_cons, if_neg h, List.map_cons, List.mem_cons]
      rw [← mHas]
      rw [ih]
      constructor
      · exact fun hm => Or.inr hm
      · rintro (hm | hm)
        · exact absurd hm.symm h
        · exact hm

theorem mGet_mSet_fresh {K V : Type} [DecidableEq K]
    {m : List (K × V)} {k : K} (v : V) (h : mHas m k = false) (k' : K) :
    mGet (mSet m k v) k' = if k' = k then some v else mGet m k' := by
  unfold mSet
  rw [h]
  simp only [Bool.false_eq_true, if_false]
  induction m with
  | nil =>
    by_cases hk : k' = k <;> simp [mGet_cons, hk, mGet]
    intro hh; exact absurd hh.symm hk
  | cons p m ih =>
    have hp : mHas m k = false := by
      by_cases hm : mHas m k = true
      · exfalso
        rw [mHas_true_iff_mem] at hm
        have : mHas (p :: m) k = true := by
          rw [mHas_true_iff_mem]; simp [hm]
        rw [h] at this; exact Bool.false_ne_true this
      · exact Bool.eq_false_iff.mpr hm
    have hpk : p.1 ≠ k := by
      intro hh
      have : mHas (p :: m) k = true := by
        rw [mHas_true_iff_mem]; simp [hh]
      rw [h] at this; exact Bool.false_ne_true this
    by_cases hk : k' = k
    · subst hk
      rw [List.cons_append, mGet_cons, if_neg hpk, ih hp, if_pos rfl]
      simp
    · rw [List.cons_append, mGet_cons, mGet_cons]
      by_cases hpk' : p.1 = k'
      · rw [if_pos hpk', if_pos hpk', if_neg hk]
      · rw [if_neg hpk', if_neg hpk', ih hp, if_neg hk]

theorem mSet_keys_fresh {K V : Type} [DecidableEq K]
    {m : List (K × V)} {k : K} (v : V) (h : mHas m k = false) :
    (mSet m k v).map Prod.fst = m.map Prod.fst ++ [k] := by
  unfold mSet
  rw [h]
  simp

theorem mSet_keys_stale {K V : Type} [DecidableEq K]
    {m : List (K × V)} {k : K} (v : V) (h : mHas m k = true) :
    (mSet m k v).map Prod.fst = m.map Prod.fst := by
  unfold mSet
  rw [h]
  simp only [if_true, List.map_map]
  apply List.map_congr_left
  intro a _
  by_cases ha : a.1 = k <;> simp [ha, Function.comp]

theorem mSet_length_fresh {K V : Type} [DecidableEq K]
    {m : List (K × V)} {k : K} (v : V) (h : mHas m k = false) :
    (mSet m k v).length = m.length + 1 := by
  unfold mSet
  rw [h]
  simp

theorem mSet_cons_ne {K V : Type} [DecidableEq K]
    (p : K × V) (m : List (K × V)) {k : K} (v : V) (h : p.1 ≠ k) :
    mSet (p :: m) k v = p :: mSet m k v := by
  have hhas : mHas (p :: m) k = mHas m k := by
    by_cases hm : mHas m k = true
    · rw [hm, mHas_true_iff_mem]
      rw [mHas_true_iff_mem] at hm
      simp [hm]
    · have hmf : mHas m k = false := Bool.eq_false_iff.mpr hm
      rw [hmf]
      rw [Bool.eq_false_iff, Ne, mHas_true_iff_mem]
      rw [Bool.eq_false_iff, Ne, mHas_true_iff_mem] at hmf
      simp only [List.map_cons, List.mem_cons]
      rintro (hh | hh)
      · exact h hh.symm
      · exact hmf hh
  unfold mSet
  rw [hhas]
  by_cases hm : mHas m k = true
  · rw [hm]
    simp [h]
  · rw [Bool.eq_false_iff.mpr hm]
    simp

theorem mGet_mSet_self {K V : Type} [DecidableEq K]
    (m : List (K × V)) (k : K) (v : V) : mGet (mSet m k v) k = some v := by
  induction m with
  | nil => simp [mSet, mHas, mGet]
  | cons p m ih =>
    by_cases hp : p.1 = k
    · have hhas : mHas (p :: m) k = true := by
        rw [mHas_true_iff_mem]
        simp [hp]
      unfold mSet
      rw [hhas]
      simp only [if_true, List.map_cons, if_pos hp]
      rw [mGet_cons]
      simp
    · rw [mSet_cons_ne p m v hp, mGet_cons, if_neg hp]
      exact ih

theorem mGet_mSet_preserved {K V : Type} [DecidableEq K]
    {m : List (K × V)} {k k' : K} {v v' : V} (hfresh : mHas m k' = false)
    (h : mGet m k = some v) : mGet (mSet m k' v') k = some v := by
  rw [mGet_mSet_fresh v' hfresh k]
  have hne : k ≠ k' := by
    intro hh
    subst hh
    unfold mHas at hfresh
    rw [h] at hfresh
    simp at hfresh
  rw [if_neg hne, h]

theorem mHas_mSet_self {K V : Type} [DecidableEq K]
    (m : List (K × V)) (k : K) (v : V) : mHas (mSet m k v) k = true := by
  by_cases h : mHas m k = true
  · rw [mHas_true_iff_mem, mSet_keys_stale v h]
    exact (mHas_true_iff_mem m k).mp h
  · have hf : mHas m k = false := Bool.eq_false_iff.mpr h
    rw [mHas_true_iff_mem, mSet_keys_fresh v hf]
    simp

/-! ## Record-update shapes and preserved-field lemmas -/

@[simp] theorem progress_apply (ctx : Ctx) (c : Option Nat) :
    progress ctx c = { ctx with progressCurrents := ctx.progressCurrents ++ [c] } := rfl

@[simp] theorem recordPipelineEvent_apply (ctx : Ctx) (e : NostrEvent) :
    recordPipelineEvent ctx e = { ctx with pipelineEvents := ctx.pipelineEvents ++ [e] } := rfl

/-- The fields of the context that the batched publisher never touches:
everything except the queue, the published trace and the slept delays. -/
def PubFrame (a b : Ctx) : Prop :=
  b = { a with eventQueue := b.eventQueue, published := b.published,
               delaysSlept := b.delaysSlept }

theorem pubFrame_refl (a : Ctx) : PubFrame a a := rfl

theorem pubFrame_trans {a b c : Ctx} (h1 : PubFrame a b) (h2 : PubFrame b c) :
    PubFrame a c := by
  unfold PubFrame at *
  rw [h2, h1]

theorem flushEventQueue_frame (ctx : Ctx) : PubFrame ctx (flushEventQueue ctx) := by
  unfold flushEventQueue PubFrame
  split <;> rfl

theorem publishEventBatched_frame (ctx : Ctx) (e : NostrEvent) :
    PubFrame ctx (publishEventBatched ctx e) := by
  unfold publishEventBatched
  dsimp only
  split
  · exact pubFrame_trans (b := { ctx with eventQueue := ctx.eventQueue ++ [e] })
      rfl (flushEventQueue_frame _)
  · rfl

theorem flushEventQueue_of_ne (ctx : Ctx) (h : ctx.eventQueue ≠ []) :
    flushEventQueue ctx =
      { ctx with eventQueue := [], published := ctx.published ++ ctx.eventQueue,
                 delaysSlept := ctx.delaysSlept + (if ctx.batchDelay > 0 then 1 else 0) } := by
  unfold flushEventQueue
  rw [if_neg h]

/-- **C7.**  The batched publisher flushes on enqueue exactly when the enqueue
brings the queue to (at least) the configured batch size: the queue length
never exceeds `batchSize` after any enqueue, an enqueue that reaches the
threshold empties the queue and hands exactly the accumulated batch to the
publisher, and an enqueue below the threshold publishes nothing and only
appends.  (The only other flush sites in the source are the explicit
pipeline-final and run-final `flushEventQueue` calls.) -/
theorem publishEventBatched_flush_iff (ctx : Ctx) (e : NostrEvent) :
    ((publishEventBatched ctx e).eventQueue.length ≤ ctx.batchSize) ∧
    (ctx.batchSize ≤ ctx.eventQueue.length + 1 →
      (publishEventBatched ctx e).eventQueue = [] ∧
      (publishEventBatched ctx e).published = ctx.published ++ (ctx.eventQueue ++ [e])) ∧
    (ctx.eventQueue.length + 1 < ctx.batchSize →
      (publishEventBatched ctx e).eventQueue = ctx.eventQueue ++ [e] ∧
      (publishEventBatched ctx e).published = ctx.published) := by
  have hne : ctx.eventQueue ++ [e] ≠ [] := by simp
  have hlen : (ctx.eventQueue ++ [e]).length = ctx.eventQueue.length + 1 := by simp
  unfold publishEventBatched
  dsimp only
  by_cases h : ctx.batchSize ≤ (ctx.eventQueue ++ [e]).length
  · rw [if_pos h, flushEventQueue_of_ne _ hne]
    refine ⟨by simp, fun _ => ⟨rfl, rfl⟩, fun hlt => ?_⟩
    rw [hlen] at h
    omega
  · rw [if_neg h]
    rw [hlen] at h
    exact ⟨by simp; omega, fun hge => absurd hge h, fun _ => ⟨rfl, rfl⟩⟩

/-- **C10.**  Flushing an empty queue is a no-op: the context (including the
published trace and the slept-delay count) is returned unchanged, and since a
flush always leaves the queue empty, a second flush right after a flush —
such as the run-final flush following a pipeline's own final flush —
publishes nothing and adds no delay. -/
theorem flushEventQueue_empty_noop (ctx : Ctx) :
    (ctx.eventQueue = [] → flushEventQueue ctx = ctx) ∧
    flushEventQueue (flushEventQueue ctx) = flushEventQueue ctx := by
  constructor
  · intro h
    unfold flushEventQueue
    rw [if_pos h]
  · by_cases h : ctx.eventQueue = []
    · unfold flushEventQueue
      rw [if_pos h, if_pos h]
    · rw [flushEventQueue_of_ne _ h]
      unfold flushEventQueue
      rw [if_pos rfl]

/-- Witness for C7 at a concrete context: batch size 2, one queued event;
the enqueue reaches the threshold, flushes the two-event batch and leaves
the queue empty. -/
theorem publishEventBatched_flush_iff_witness :
    (({ batchSize := 2, eventQueue := [{ kind := 7 }] } : Ctx).batchSize ≤
        ({ batchSize := 2, eventQueue := [{ kind := 7 }] } : Ctx).eventQueue.length + 1) ∧
    (publishEventBatched { batchSize := 2, eventQueue := [{ kind := 7 }] } { kind := 8 }).eventQueue = [] ∧
    (publishEventBatched { batchSize := 2, eventQueue := [{ kind := 7 }] } { kind := 8 }).published =
      [{ kind := 7 }, { kind := 8 }] := by
  have h := publishEventBatched_flush_iff { batchSize := 2, eventQueue := [{ kind := 7 }] } { kind := 8 }
  exact ⟨by decide, (h.2.1 (by decide)).1, by rw [(h.2.1 (by decide)).2]; rfl⟩

/-- Witness for C10 at a concrete context with an empty queue. -/
theorem flushEventQueue_empty_noop_witness :
    (({ batchSize := 5 } : Ctx).eventQueue = []) ∧
    flushEventQueue ({ batchSize := 5 } : Ctx) = { batchSize := 5 } := by
  exact ⟨rfl, (flushEventQueue_empty_noop { batchSize := 5 }).1 rfl⟩

/-! ## Identity bridger and profile manager lemmas -/

/-- The fields the NIP-39 lookup may touch: the two caches and the query
counter; everything else is returned unchanged. -/
def LookupFrame (a b : Ctx) : Prop :=
  b = { a with bridgedNostrPubkeys := b.bridgedNostrPubkeys,
               nip39CheckedKeys := b.nip39CheckedKeys,
               nip39Queries := b.nip39Queries }

theorem lookup_frame (env : Env) (ctx : Ctx) (p u : String) :
    LookupFrame ctx (lookupNip39BridgedPubkey env ctx p u).1 := by
  unfold lookupNip39BridgedPubkey LookupFrame
  dsimp only
  repeat' split
  all_goals rfl

/-- The fields `ensureUserProfile` may touch: the profile maps plus whatever
the NIP-39 lookup touches. -/
def EnsureFrame (a b : Ctx) : Prop :=
  b = { a with userProfiles := b.userProfiles,
               profileEvents := b.profileEvents,
               bridgedNostrPubkeys := b.bridgedNostrPubkeys,
               nip39CheckedKeys := b.nip39CheckedKeys,
               nip39Queries := b.nip39Queries }

theorem ensure_frame (env : Env) (ctx : Ctx) (u a : String) :
    EnsureFrame ctx (ensureUserProfile env ctx u a) := by
  unfold ensureUserProfile EnsureFrame
  dsimp only
  split
  · rfl
  · have h := lookup_frame env ctx ctx.platform u
    unfold LookupFrame at h
    rw [h]


/-! ### Preserved-field projections of the state transformers -/

@[simp] theorem flushEQ_platform (ctx : Ctx) : (flushEventQueue ctx).platform = ctx.platform := by
  have h := flushEventQueue_frame ctx; unfold PubFrame at h; rw [h]

@[simp] theorem pubEB_platform (ctx : Ctx) (e : NostrEvent) : (publishEventBatched ctx e).platform = ctx.platform := by
  have h := publishEventBatched_frame ctx e; unfold PubFrame at h; rw [h]

@[simp] theorem flushEQ_owner (ctx : Ctx) : (flushEventQueue ctx).owner = ctx.owner := by
  have h := flushEventQueue_frame ctx; unfold PubFrame at h; rw [h]

@[simp] theorem pubEB_owner (ctx : Ctx) (e : NostrEvent) : (publishEventBatched ctx e).owner = ctx.owner := by
  have h := publishEventBatched_frame ctx e; unfold PubFrame at h; rw [h]

@[simp] theorem flushEQ_repo (ctx : Ctx) : (flushEventQueue ctx).repo = ctx.repo := by
  have h := flushEventQueue_frame ctx; unfold PubFrame at h; rw [h]

@[simp] theorem pubEB_repo (ctx : Ctx) (e : NostrEvent) : (publishEventBatched ctx e).repo = ctx.repo := by
  have h := publishEventBatched_frame ctx e; unfold PubFrame at h; rw [h]

@[simp] theorem flushEQ_userPubkey (ctx : Ctx) : (flushEventQueue ctx).userPubkey = ctx.userPubkey := by
  have h := flushEventQueue_frame ctx; unfold PubFrame at h; rw [h]

@[simp] theorem pubEB_userPubkey (ctx : Ctx) (e : NostrEvent) : (publishEventBatched ctx e).userPubkey = ctx.userPubkey := by
  have h := publishEventBatched_frame ctx e; unfold PubFrame at h; rw [h]

@[simp] theorem flushEQ_repoAddr (ctx : Ctx) : (flushEventQueue ctx).repoAddr = ctx.repoAddr := by
  have h := flushEventQueue_frame ctx; unfold PubFrame at h; rw [h]

@[simp] theorem pubEB_repoAddr (ctx : Ctx) (e : NostrEvent) : (publishEventBatched ctx e).repoAddr = ctx.repoAddr := by
  have h := publishEventBatched_frame ctx e; unfold PubFrame at h; rw [h]

@[simp] theorem flushEQ_sinceDate (ctx : Ctx) : (flushEventQueue ctx).sinceDate = ctx.sinceDate := by
  have h := flushEventQueue_frame ctx; unfold PubFrame at h; rw [h]

@[simp] theorem pubEB_sinceDate (ctx : Ctx) (e : NostrEvent) : (publishEventBatched ctx e).sinceDate = ctx.sinceDate := by
  have h := publishEventBatched_frame ctx e; unfold PubFrame at h; rw [h]

@[simp] theorem flushEQ_relays (ctx : Ctx) : (flushEventQueue ctx).relays = ctx.relays := by
  have h := flushEventQueue_frame ctx; unfold PubFrame at h; rw [h]

@[simp] theorem pubEB_relays (ctx : Ctx) (e : NostrEvent) : (publishEventBatched ctx e).relays = ctx.relays := by
  have h := publishEventBatched_frame ctx e; unfold PubFrame at h; rw [h]

@[simp] theorem flushEQ_mirrorIssues (ctx : Ctx) : (flushEventQueue ctx).mirrorIssues = ctx.mirrorIssues := by
  have h := flushEventQueue_frame ctx; unfold PubFrame at h; rw [h]

@[simp] theorem pubEB_mirrorIssues (ctx : Ctx) (e : NostrEvent) : (publishEventBatched ctx e).mirrorIssues = ctx.mirrorIssues := by
  have h := publishEventBatched_frame ctx e; unfold PubFrame at h; rw [h]

@[simp] theorem flushEQ_mirrorPullRequests (ctx : Ctx) : (flushEventQueue ctx).mirrorPullRequests = ctx.mirrorPullRequests := by
  have h := flushEventQueue_frame ctx; unfold PubFrame at h; rw [h]

@[simp] theorem pubEB_mirrorPullRequests (ctx : Ctx) (e : NostrEvent) : (publishEventBatched ctx e).mirrorPullRequests = ctx.mirrorPullRequests := by
  have h := publishEventBatched_frame ctx e; unfold PubFrame at h; rw [h]

@[simp] theorem flushEQ_mirrorComments (ctx : Ctx) : (flushEventQueue ctx).mirrorComments = ctx.mirrorComments := by
  have h := flushEventQueue_frame ctx; unfold PubFrame at h; rw [h]

@[simp] theorem pubEB_mirrorComments (ctx : Ctx) (e : NostrEvent) : (publishEventBatched ctx e).mirrorComments = ctx.mirrorComments := by
  have h := publishEventBatched_frame ctx e; unfold PubFrame at h; rw [h]

@[simp] theorem flushEQ_forkRepoCfg (ctx : Ctx) : (flushEventQueue ctx).forkRepoCfg = ctx.forkRepoCfg := by
  have h := flushEventQueue_frame ctx; unfold PubFrame at h; rw [h]

@[simp] theorem pubEB_forkRepoCfg (ctx : Ctx) (e : NostrEvent) : (publishEventBatched ctx e).forkRepoCfg = ctx.forkRepoCfg := by
  have h := publishEventBatched_frame ctx e; unfold PubFrame at h; rw [h]

@[simp] theorem flushEQ_forkName (ctx : Ctx) : (flushEventQueue ctx).forkName = ctx.forkName := by
  have h := flushEventQueue_frame ctx; unfold PubFrame at h; rw [h]

@[simp] theorem pubEB_forkName (ctx : Ctx) (e : NostrEvent) : (publishEventBatched ctx e).forkName = ctx.forkName := by
  have h := publishEventBatched_frame ctx e; unfold PubFrame at h; rw [h]

@[simp] theorem flushEQ_batchSize (ctx : Ctx) : (flushEventQueue ctx).batchSize = ctx.batchSize := by
  have h := flushEventQueue_frame ctx; unfold PubFrame at h; rw [h]

@[simp] theorem pubEB_batchSize (ctx : Ctx) (e : NostrEvent) : (publishEventBatched ctx e).batchSize = ctx.batchSize := by
  have h := publishEventBatched_frame ctx e; unfold PubFrame at h; rw [h]

@[simp] theorem flushEQ_batchDelay (ctx : Ctx) : (flushEventQueue ctx).batchDelay = ctx.batchDelay := by
  have h := flushEventQueue_frame ctx; unfold PubFrame at h; rw [h]

@[simp] theorem pubEB_batchDelay (ctx : Ctx) (e : NostrEvent) : (publishEventBatched ctx e).batchDelay = ctx.batchDelay := by
  have h := publishEventBatched_frame ctx e; unfold PubFrame at h; rw [h]

@[simp] theorem flushEQ_hasSignEvent (ctx : Ctx) : (flushEventQueue ctx).hasSignEvent = ctx.hasSignEvent := by
  have h := flushEventQueue_frame ctx; unfold PubFrame at h; rw [h]

@[simp] theorem pubEB_hasSignEvent (ctx : Ctx) (e : NostrEvent) : (publishEventBatched ctx e).hasSignEvent = ctx.hasSignEvent := by
  have h := publishEventBatched_frame ctx e; unfold PubFrame at h; rw [h]

@[simp] theorem flushEQ_hasPublishEvent (ctx : Ctx) : (flushEventQueue ctx).hasPublishEvent = ctx.hasPublishEvent := by
  have h := flushEventQueue_frame ctx; unfold PubFrame at h; rw [h]

@[simp] theorem pubEB_hasPublishEvent (ctx : Ctx) (e : NostrEvent) : (publishEventBatched ctx e).hasPublishEvent = ctx.hasPublishEvent := by
  have h := publishEventBatched_frame ctx e; unfold PubFrame at h; rw [h]

@[simp] theorem flushEQ_hasEventIo (ctx : Ctx) : (flushEventQueue ctx).hasEventIo = ctx.hasEventIo := by
  have h := flushEventQueue_frame ctx; unfold PubFrame at h; rw [h]

@[simp] theorem pubEB_hasEventIo (ctx : Ctx) (e : NostrEvent) : (publishEventBatched ctx e).hasEventIo = ctx.hasEventIo := by
  have h := publishEventBatched_frame ctx e; unfold PubFrame at h; rw [h]

@[simp] theorem flushEQ_hasFetchEvents (ctx : Ctx) : (flushEventQueue ctx).hasFetchEvents = ctx.hasFetchEvents := by
  have h := flushEventQueue_frame ctx; unfold PubFrame at h; rw [h]

@[simp] theorem pubEB_hasFetchEvents (ctx : Ctx) (e : NostrEvent) : (publishEventBatched ctx e).hasFetchEvents = ctx.hasFetchEvents := by
  have h := publishEventBatched_frame ctx e; unfold PubFrame at h; rw [h]

@[simp] theorem flushEQ_importTimestamp (ctx : Ctx) : (flushEventQueue ctx).importTimestamp = ctx.importTimestamp := by
  have h := flushEventQueue_frame ctx; unfold PubFrame at h; rw [h]

@[simp] theorem pubEB_importTimestamp (ctx : Ctx) (e : NostrEvent) : (publishEventBatched ctx e).importTimestamp = ctx.importTimestamp := by
  have h := publishEventBatched_frame ctx e; unfold PubFrame at h; rw [h]

@[simp] theorem flushEQ_startTimestamp (ctx : Ctx) : (flushEventQueue ctx).startTimestamp = ctx.startTimestamp := by
  have h := flushEventQueue_frame ctx; unfold PubFrame at h; rw [h]

@[simp] theorem pubEB_startTimestamp (ctx : Ctx) (e : NostrEvent) : (publishEventBatched ctx e).startTimestamp = ctx.startTimestamp := by
  have h := publishEventBatched_frame ctx e; unfold PubFrame at h; rw [h]

@[simp] theorem flushEQ_currentTimestamp (ctx : Ctx) : (flushEventQueue ctx).currentTimestamp = ctx.currentTimestamp := by
  have h := flushEventQueue_frame ctx; unfold PubFrame at h; rw [h]

@[simp] theorem pubEB_currentTimestamp (ctx : Ctx) (e : NostrEvent) : (publishEventBatched ctx e).currentTimestamp = ctx.currentTimestamp := by
  have h := publishEventBatched_frame ctx e; unfold PubFrame at h; rw [h]

@[simp] theorem flushEQ_finalRepo (ctx : Ctx) : (flushEventQueue ctx).finalRepo = ctx.finalRepo := by
  have h := flushEventQueue_frame ctx; unfold PubFrame at h; rw [h]

@[simp] theorem pubEB_finalRepo (ctx : Ctx) (e : NostrEvent) : (publishEventBatched ctx e).finalRepo = ctx.finalRepo := by
  have h := publishEventBatched_frame ctx e; unfold PubFrame at h; rw [h]

@[simp] theorem flushEQ_userProfiles (ctx : Ctx) : (flushEventQueue ctx).userProfiles = ctx.userProfiles := by
  have h := flushEventQueue_frame ctx; unfold PubFrame at h; rw [h]

@[simp] theorem pubEB_userProfiles (ctx : Ctx) (e : NostrEvent) : (publishEventBatched ctx e).userProfiles = ctx.userProfiles := by
  have h := publishEventBatched_frame ctx e; unfold PubFrame at h; rw [h]

@[simp] theorem flushEQ_profileEvents (ctx : Ctx) : (flushEventQueue ctx).profileEvents = ctx.profileEvents := by
  have h := flushEventQueue_frame ctx; unfold PubFrame at h; rw [h]

@[simp] theorem pubEB_profileEvents (ctx : Ctx) (e : NostrEvent) : (publishEventBatched ctx e).profileEvents = ctx.profileEvents := by
  have h := publishEventBatched_frame ctx e; unfold PubFrame at h; rw [h]

@[simp] theorem flushEQ_bridgedNostrPubkeys (ctx : Ctx) : (flushEventQueue ctx).bridgedNostrPubkeys = ctx.bridgedNostrPubkeys := by
  have h := flushEventQueue_frame ctx; unfold PubFrame at h; rw [h]

@[simp] theorem pubEB_bridgedNostrPubkeys (ctx : Ctx) (e : NostrEvent) : (publishEventBatched ctx e).bridgedNostrPubkeys = ctx.bridgedNostrPubkeys := by
  have h := publishEventBatched_frame ctx e; unfold PubFrame at h; rw [h]

@[simp] theorem flushEQ_nip39CheckedKeys (ctx : Ctx) : (flushEventQueue ctx).nip39CheckedKeys = ctx.nip39CheckedKeys := by
  have h := flushEventQueue_frame ctx; unfold PubFrame at h; rw [h]

@[simp] theorem pubEB_nip39CheckedKeys (ctx : Ctx) (e : NostrEvent) : (publishEventBatched ctx e).nip39CheckedKeys = ctx.nip39CheckedKeys := by
  have h := publishEventBatched_frame ctx e; unfold PubFrame at h; rw [h]

@[simp] theorem flushEQ_issueEventIdMap (ctx : Ctx) : (flushEventQueue ctx).issueEventIdMap = ctx.issueEventIdMap := by
  have h := flushEventQueue_frame ctx; unfold PubFrame at h; rw [h]

@[simp] theorem pubEB_issueEventIdMap (ctx : Ctx) (e : NostrEvent) : (publishEventBatched ctx e).issueEventIdMap = ctx.issueEventIdMap := by
  have h := publishEventBatched_frame ctx e; unfold PubFrame at h; rw [h]

@[simp] theorem flushEQ_prEventIdMap (ctx : Ctx) : (flushEventQueue ctx).prEventIdMap = ctx.prEventIdMap := by
  have h := flushEventQueue_frame ctx; unfold PubFrame at h; rw [h]

@[simp] theorem pubEB_prEventIdMap (ctx : Ctx) (e : NostrEvent) : (publishEventBatched ctx e).prEventIdMap = ctx.prEventIdMap := by
  have h := publishEventBatched_frame ctx e; unfold PubFrame at h; rw [h]

@[simp] theorem flushEQ_issuesPublished (ctx : Ctx) : (flushEventQueue ctx).issuesPublished = ctx.issuesPublished := by
  have h := flushEventQueue_frame ctx; unfold PubFrame at h; rw [h]

@[simp] theorem pubEB_issuesPublished (ctx : Ctx) (e : NostrEvent) : (publishEventBatched ctx e).issuesPublished = ctx.issuesPublished := by
  have h := publishEventBatched_frame ctx e; unfold PubFrame at h; rw [h]

@[simp] theorem flushEQ_prsPublished (ctx : Ctx) : (flushEventQueue ctx).prsPublished = ctx.prsPublished := by
  have h := flushEventQueue_frame ctx; unfold PubFrame at h; rw [h]

@[simp] theorem pubEB_prsPublished (ctx : Ctx) (e : NostrEvent) : (publishEventBatched ctx e).prsPublished = ctx.prsPublished := by
  have h := publishEventBatched_frame ctx e; unfold PubFrame at h; rw [h]

@[simp] theorem flushEQ_commentsPublished (ctx : Ctx) : (flushEventQueue ctx).commentsPublished = ctx.commentsPublished := by
  have h := flushEventQueue_frame ctx; unfold PubFrame at h; rw [h]

@[simp] theorem pubEB_commentsPublished (ctx : Ctx) (e : NostrEvent) : (publishEventBatched ctx e).commentsPublished = ctx.commentsPublished := by
  have h := publishEventBatched_frame ctx e; unfold PubFrame at h; rw [h]

@[simp] theorem flushEQ_statusEventsPublished (ctx : Ctx) : (flushEventQueue ctx).statusEventsPublished = ctx.statusEventsPublished := by
  have h := flushEventQueue_frame ctx; unfold PubFrame at h; rw [h]

@[simp] theorem pubEB_statusEventsPublished (ctx : Ctx) (e : NostrEvent) : (publishEventBatched ctx e).statusEventsPublished = ctx.statusEventsPublished := by
  have h := publishEventBatched_frame ctx e; unfold PubFrame at h; rw [h]

@[simp] theorem flushEQ_pipelineEvents (ctx : Ctx) : (flushEventQueue ctx).pipelineEvents = ctx.pipelineEvents := by
  have h := flushEventQueue_frame ctx; unfold PubFrame at h; rw [h]

@[simp] theorem pubEB_pipelineEvents (ctx : Ctx) (e : NostrEvent) : (publishEventBatched ctx e).pipelineEvents = ctx.pipelineEvents := by
  have h := publishEventBatched_frame ctx e; unfold PubFrame at h; rw [h]

@[simp] theorem flushEQ_fetchedIssuePages (ctx : Ctx) : (flushEventQueue ctx).fetchedIssuePages = ctx.fetchedIssuePages := by
  have h := flushEventQueue_frame ctx; unfold PubFrame at h; rw [h]

@[simp] theorem pubEB_fetchedIssuePages (ctx : Ctx) (e : NostrEvent) : (publishEventBatched ctx e).fetchedIssuePages = ctx.fetchedIssuePages := by
  have h := publishEventBatched_frame ctx e; unfold PubFrame at h; rw [h]

@[simp] theorem flushEQ_fetchedPrPages (ctx : Ctx) : (flushEventQueue ctx).fetchedPrPages = ctx.fetchedPrPages := by
  have h := flushEventQueue_frame ctx; unfold PubFrame at h; rw [h]

@[simp] theorem pubEB_fetchedPrPages (ctx : Ctx) (e : NostrEvent) : (publishEventBatched ctx e).fetchedPrPages = ctx.fetchedPrPages := by
  have h := publishEventBatched_frame ctx e; unfold PubFrame at h; rw [h]

@[simp] theorem flushEQ_fetchedCommentPages (ctx : Ctx) : (flushEventQueue ctx).fetchedCommentPages = ctx.fetchedCommentPages := by
  have h := flushEventQueue_frame ctx; unfold PubFrame at h; rw [h]

@[simp] theorem pubEB_fetchedCommentPages (ctx : Ctx) (e : NostrEvent) : (publishEventBatched ctx e).fetchedCommentPages = ctx.fetchedCommentPages := by
  have h := publishEventBatched_frame ctx e; unfold PubFrame at h; rw [h]

@[simp] theorem flushEQ_convertedCommentParents (ctx : Ctx) : (flushEventQueue ctx).convertedCommentParents = ctx.convertedCommentParents := by
  have h := flushEventQueue_frame ctx; unfold PubFrame at h; rw [h]

@[simp] theorem pubEB_convertedCommentParents (ctx : Ctx) (e : NostrEvent) : (publishEventBatched ctx e).convertedCommentParents = ctx.convertedCommentParents := by
  have h := publishEventBatched_frame ctx e; unfold PubFrame at h; rw [h]

@[simp] theorem flushEQ_progressCurrents (ctx : Ctx) : (flushEventQueue ctx).progressCurrents = ctx.progressCurrents := by
  have h := flushEventQueue_frame ctx; unfold PubFrame at h; rw [h]

@[simp] theorem pubEB_progressCurrents (ctx : Ctx) (e : NostrEvent) : (publishEventBatched ctx e).progressCurrents = ctx.progressCurrents := by
  have h := publishEventBatched_frame ctx e; unfold PubFrame at h; rw [h]

@[simp] theorem flushEQ_nip39Queries (ctx : Ctx) : (flushEventQueue ctx).nip39Queries = ctx.nip39Queries := by
  have h := flushEventQueue_frame ctx; unfold PubFrame at h; rw [h]

@[simp] theorem pubEB_nip39Queries (ctx : Ctx) (e : NostrEvent) : (publishEventBatched ctx e).nip39Queries = ctx.nip39Queries := by
  have h := publishEventBatched_frame ctx e; unfold PubFrame at h; rw [h]

@[simp] theorem ensureUP_platform (env : Env) (ctx : Ctx) (u a : String) : (ensureUserProfile env ctx u a).platform = ctx.platform := by
  have h := ensure_frame env ctx u a; unfold EnsureFrame at h; rw [h]

@[simp] theorem ensureUP_owner (env : Env) (ctx : Ctx) (u a : String) : (ensureUserProfile env ctx u a).owner = ctx.owner := by
  have h := ensure_frame env ctx u a; unfold EnsureFrame at h; rw [h]

@[simp] theorem ensureUP_repo (env : Env) (ctx : Ctx) (u a : String) : (ensureUserProfile env ctx u a).repo = ctx.repo := by
  have h := ensure_frame env ctx u a; unfold EnsureFrame at h; rw [h]

@[simp] theorem ensureUP_userPubkey (env : Env) (ctx : Ctx) (u a : String) : (ensureUserProfile env ctx u a).userPubkey = ctx.userPubkey := by
  have h := ensure_frame env ctx u a; unfold EnsureFrame at h; rw [h]

@[simp] theorem ensureUP_repoAddr (env : Env) (ctx : Ctx) (u a : String) : (ensureUserProfile env ctx u a).repoAddr = ctx.repoAddr := by
  have h := ensure_frame env ctx u a; unfold EnsureFrame at h; rw [h]

@[simp] theorem ensureUP_sinceDate (env : Env) (ctx : Ctx) (u a : String) : (ensureUserProfile env ctx u a).sinceDate = ctx.sinceDate := by
  have h := ensure_frame env ctx u a; unfold EnsureFrame at h; rw [h]

@[simp] theorem ensureUP_relays (env : Env) (ctx : Ctx) (u a : String) : (ensureUserProfile env ctx u a).relays = ctx.relays := by
  have h := ensure_frame env ctx u a; unfold EnsureFrame at h; rw [h]

@[simp] theorem ensureUP_mirrorIssues (env : Env) (ctx : Ctx) (u a : String) : (ensureUserProfile env ctx u a).mirrorIssues = ctx.mirrorIssues := by
  have h := ensure_frame env ctx u a; unfold EnsureFrame at h; rw [h]

@[simp] theorem ensureUP_mirrorPullRequests (env : Env) (ctx : Ctx) (u a : String) : (ensureUserProfile env ctx u a).mirrorPullRequests = ctx.mirrorPullRequests := by
  have h := ensure_frame env ctx u a; unfold EnsureFrame at h; rw [h]

@[simp] theorem ensureUP_mirrorComments (env : Env) (ctx : Ctx) (u a : String) : (ensureUserProfile env ctx u a).mirrorComments = ctx.mirrorComments := by
  have h := ensure_frame env ctx u a; unfold EnsureFrame at h; rw [h]

@[simp] theorem ensureUP_forkRepoCfg (env : Env) (ctx : Ctx) (u a : String) : (ensureUserProfile env ctx u a).forkRepoCfg = ctx.forkRepoCfg := by
  have h := ensure_frame env ctx u a; unfold EnsureFrame at h; rw [h]

@[simp] theorem ensureUP_forkName (env : Env) (ctx : Ctx) (u a : String) : (ensureUserProfile env ctx u a).forkName = ctx.forkName := by
  have h := ensure_frame env ctx u a; unfold EnsureFrame at h; rw [h]

@[simp] theorem ensureUP_batchSize (env : Env) (ctx : Ctx) (u a : String) : (ensureUserProfile env ctx u a).batchSize = ctx.batchSize := by
  have h := ensure_frame env ctx u a; unfold EnsureFrame at h; rw [h]

@[simp] theorem ensureUP_batchDelay (env : Env) (ctx : Ctx) (u a : String) : (ensureUserProfile env ctx u a).batchDelay = ctx.batchDelay := by
  have h := ensure_frame env ctx u a; unfold EnsureFrame at h; rw [h]

@[simp] theorem ensureUP_hasSignEvent (env : Env) (ctx : Ctx) (u a : String) : (ensureUserProfile env ctx u a).hasSignEvent = ctx.hasSignEvent := by
  have h := ensure_frame env ctx u a; unfold EnsureFrame at h; rw [h]

@[simp] theorem ensureUP_hasPublishEvent (env : Env) (ctx : Ctx) (u a : String) : (ensureUserProfile env ctx u a).hasPublishEvent = ctx.hasPublishEvent := by
  have h := ensure_frame env ctx u a; unfold EnsureFrame at h; rw [h]

@[simp] theorem ensureUP_hasEventIo (env : Env) (ctx : Ctx) (u a : String) : (ensureUserProfile env ctx u a).hasEventIo = ctx.hasEventIo := by
  have h := ensure_frame env ctx u a; unfold EnsureFrame at h; rw [h]

@[simp] theorem ensureUP_hasFetchEvents (env : Env) (ctx : Ctx) (u a : String) : (ensureUserProfile env ctx u a).hasFetchEvents = ctx.hasFetchEvents := by
  have h := ensure_frame env ctx u a; unfold EnsureFrame at h; rw [h]

@[simp] theorem ensureUP_importTimestamp (env : Env) (ctx : Ctx) (u a : String) : (ensureUserProfile env ctx u a).importTimestamp = ctx.importTimestamp := by
  have h := ensure_frame env ctx u a; unfold EnsureFrame at h; rw [h]

@[simp] theorem ensureUP_startTimestamp (env : Env) (ctx : Ctx) (u a : String) : (ensureUserProfile env ctx u a).startTimestamp = ctx.startTimestamp := by
  have h := ensure_frame env ctx u a; unfold EnsureFrame at h; rw [h]

@[simp] theorem ensureUP_currentTimestamp (env : Env) (ctx : Ctx) (u a : String) : (ensureUserProfile env ctx u a).currentTimestamp = ctx.currentTimestamp := by
  have h := ensure_frame env ctx u a; unfold EnsureFrame at h; rw [h]

@[simp] theorem ensureUP_finalRepo (env : Env) (ctx : Ctx) (u a : String) : (ensureUserProfile env ctx u a).finalRepo = ctx.finalRepo := by
  have h := ensure_frame env ctx u a; unfold EnsureFrame at h; rw [h]

@[simp] theorem ensureUP_issueEventIdMap (env : Env) (ctx : Ctx) (u a : String) : (ensureUserProfile env ctx u a).issueEventIdMap = ctx.issueEventIdMap := by
  have h := ensure_frame env ctx u a; unfold EnsureFrame at h; rw [h]

@[simp] theorem ensureUP_prEventIdMap (env : Env) (ctx : Ctx) (u a : String) : (ensureUserProfile env ctx u a).prEventIdMap = ctx.prEventIdMap := by
  have h := ensure_frame env ctx u a; unfold EnsureFrame at h; rw [h]

@[simp] theorem ensureUP_issuesPublished (env : Env) (ctx : Ctx) (u a : String) : (ensureUserProfile env ctx u a).issuesPublished = ctx.issuesPublished := by
  have h := ensure_frame env ctx u a; unfold EnsureFrame at h; rw [h]

@[simp] theorem ensureUP_prsPublished (env : Env) (ctx : Ctx) (u a : String) : (ensureUserProfile env ctx u a).prsPublished = ctx.prsPublished := by
  have h := ensure_frame env ctx u a; unfold EnsureFrame at h; rw [h]

@[simp] theorem ensureUP_commentsPublished (env : Env) (ctx : Ctx) (u a : String) : (ensureUserProfile env ctx u a).commentsPublished = ctx.commentsPublished := by
  have h := ensure_frame env ctx u a; unfold EnsureFrame at h; rw [h]

@[simp] theorem ensureUP_statusEventsPublished (env : Env) (ctx : Ctx) (u a : String) : (ensureUserProfile env ctx u a).statusEventsPublished = ctx.statusEventsPublished := by
  have h := ensure_frame env ctx u a; unfold EnsureFrame at h; rw [h]

@[simp] theorem ensureUP_pipelineEvents (env : Env) (ctx : Ctx) (u a : String) : (ensureUserProfile env ctx u a).pipelineEvents = ctx.pipelineEvents := by
  have h := ensure_frame env ctx u a; unfold EnsureFrame at h; rw [h]

@[simp] theorem ensureUP_fetchedIssuePages (env : Env) (ctx : Ctx) (u a : String) : (ensureUserProfile env ctx u a).fetchedIssuePages = ctx.fetchedIssuePages := by
  have h := ensure_frame env ctx u a; unfold EnsureFrame at h; rw [h]

@[simp] theorem ensureUP_fetchedPrPages (env : Env) (ctx : Ctx) (u a : String) : (ensureUserProfile env ctx u a).fetchedPrPages = ctx.fetchedPrPages := by
  have h := ensure_frame env ctx u a; unfold EnsureFrame at h; rw [h]

@[simp] theorem ensureUP_fetchedCommentPages (env : Env) (ctx : Ctx) (u a : String) : (ensureUserProfile env ctx u a).fetchedCommentPages = ctx.fetchedCommentPages := by
  have h := ensure_frame env ctx u a; unfold EnsureFrame at h; rw [h]

@[simp] theorem ensureUP_convertedCommentParents (env : Env) (ctx : Ctx) (u a : String) : (ensureUserProfile env ctx u a).convertedCommentParents = ctx.convertedCommentParents := by
  have h := ensure_frame env ctx u a; unfold EnsureFrame at h; rw [h]

@[simp] theorem ensureUP_progressCurrents (env : Env) (ctx : Ctx) (u a : String) : (ensureUserProfile env ctx u a).progressCurrents = ctx.progressCurrents := by
  have h := ensure_frame env ctx u a; unfold EnsureFrame at h; rw [h]

@[simp] theorem ensureUP_eventQueue (env : Env) (ctx : Ctx) (u a : String) : (ensureUserProfile env ctx u a).eventQueue = ctx.eventQueue := by
  have h := ensure_frame env ctx u a; unfold EnsureFrame at h; rw [h]

@[simp] theorem ensureUP_published (env : Env) (ctx : Ctx) (u a : String) : (ensureUserProfile env ctx u a).published = ctx.published := by
  have h := ensure_frame env ctx u a; unfold EnsureFrame at h; rw [h]

@[simp] theorem ensureUP_delaysSlept (env : Env) (ctx : Ctx) (u a : String) : (ensureUserProfile env ctx u a).delaysSlept = ctx.delaysSlept := by
  have h := ensure_frame env ctx u a; unfold EnsureFrame at h; rw [h]

/-- The lookup never disturbs an existing verified binding. -/
theorem lookup_bridged_preserved (env : Env) (ctx : Ctx) (p u : String)
    {k : String} {v : String} (h : mGet ctx.bridgedNostrPubkeys k = some v) :
    mGet ((lookupNip39BridgedPubkey env ctx p u).1).bridgedNostrPubkeys k = some v := by
  unfold lookupNip39BridgedPubkey
  dsimp only
  split
  · exact h
  case h_2 heq =>
    repeat' split
    all_goals (first
      | exact h
      | exact mGet_mSet_preserved (by unfold mHas; rw [heq]; rfl) h)

/-- The lookup returns the post-lookup profile maps unchanged. -/
theorem lookup_profiles_eq (env : Env) (ctx : Ctx) (p u : String) :
    ((lookupNip39BridgedPubkey env ctx p u).1).userProfiles = ctx.userProfiles ∧
    ((lookupNip39BridgedPubkey env ctx p u).1).profileEvents = ctx.profileEvents ∧
    ((lookupNip39BridgedPubkey env ctx p u).1).platform = ctx.platform := by
  have h := lookup_frame env ctx p u
  unfold LookupFrame at h
  rw [h]
  exact ⟨rfl, rfl, rfl⟩

/-- The shape of `ensureUserProfile` on a key that already has a profile
entry: the context is returned untouched. -/
theorem ensure_has_noop (env : Env) (ctx : Ctx) (u a : String)
    (h : mHas ctx.userProfiles (getProfileMapKey ctx.platform u) = true) :
    ensureUserProfile env ctx u a = ctx := by
  unfold ensureUserProfile
  dsimp only
  rw [h]
  rfl

/-- The shape of `ensureUserProfile` on a fresh key: the NIP-39 lookup runs,
then both profile maps gain exactly the derived entry. -/
theorem ensure_fresh_shape (env : Env) (ctx : Ctx) (u a : String)
    (h : mHas ctx.userProfiles (getProfileMapKey ctx.platform u) = false) :
    ensureUserProfile env ctx u a =
      (let c := (lookupNip39BridgedPubkey env ctx ctx.platform u).1
       let p := generatePlatformUserProfile ctx.platform u
       { c with
          userProfiles := mSet c.userProfiles (getProfileMapKey ctx.platform u) (p.1, p.2.1)
          profileEvents := mSet c.profileEvents (getProfileMapKey ctx.platform u) p.2.2 }) := by
  unfold ensureUserProfile
  dsimp only
  rw [h]
  have hp := (lookup_profiles_eq env ctx ctx.platform u).2.2
  simp only [Bool.false_eq_true, if_false, hp]

/-- **C9.**  `ensureUserProfile` is idempotent per `(platform, username)`
key: a second call for the same key returns the context unchanged; existing
profile-map, profile-event and bridged-cache bindings are never overwritten;
a fresh key receives exactly the deterministically derived keypair and
profile event (so the outcome per key is independent of item order); and
distinctness of the map keys is preserved, so each key holds at most one
entry and one queued profile event. -/
theorem ensureUserProfile_idempotent (env : Env) (ctx : Ctx) (u a a' : String) :
    (ensureUserProfile env (ensureUserProfile env ctx u a) u a' = ensureUserProfile env ctx u a) ∧
    (∀ k v, mGet ctx.userProfiles k = some v →
      mGet (ensureUserProfile env ctx u a).userProfiles k = some v) ∧
    (mHas ctx.profileEvents (getProfileMapKey ctx.platform u) =
        mHas ctx.userProfiles (getProfileMapKey ctx.platform u) →
      ∀ k e, mGet ctx.profileEvents k = some e →
        mGet (ensureUserProfile env ctx u a).profileEvents k = some e) ∧
    (∀ k v, mGet ctx.bridgedNostrPubkeys k = some v →
      mGet (ensureUserProfile env ctx u a).bridgedNostrPubkeys k = some v) ∧
    (mHas ctx.userProfiles (getProfileMapKey ctx.platform u) = false →
      mGet (ensureUserProfile env ctx u a).userProfiles (getProfileMapKey ctx.platform u) =
        some ((generatePlatformUserProfile ctx.platform u).1,
              (generatePlatformUserProfile ctx.platform u).2.1) ∧
      mGet (ensureUserProfile env ctx u a).profileEvents (getProfileMapKey ctx.platform u) =
        some (generatePlatformUserProfile ctx.platform u).2.2) ∧
    ((ctx.userProfiles.map Prod.fst).Nodup →
      ((ensureUserProfile env ctx u a).userProfiles.map Prod.fst).Nodup) ∧
    ((ctx.profileEvents.map Prod.fst).Nodup →
      ((ensureUserProfile env ctx u a).profileEvents.map Prod.fst).Nodup) := by
  by_cases h : mHas ctx.userProfiles (getProfileMapKey ctx.platform u) = true
  · rw [ensure_has_noop env ctx u a h]
    exact ⟨ensure_has_noop env ctx u a' h,
      fun k v hv => hv, fun _ k e he => he, fun k v hv => hv,
      fun hf => absurd h (by rw [hf]; exact Bool.false_ne_true),
      fun hn => hn, fun hn => hn⟩
  · have hf : mHas ctx.userProfiles (getProfileMapKey ctx.platform u) = false :=
      Bool.eq_false_iff.mpr h
    have hlp := lookup_profiles_eq env ctx ctx.platform u
    have hshape := ensure_fresh_shape env ctx u a hf
    set c := (lookupNip39BridgedPubkey env ctx ctx.platform u).1 with hc
    set key := getProfileMapKey ctx.platform u with hkey
    set p := generatePlatformUserProfile ctx.platform u with hp
    have hU : (ensureUserProfile env ctx u a).userProfiles =
        mSet ctx.userProfiles key (p.1, p.2.1) := by
      rw [hshape]
      dsimp only
      rw [hlp.1]
    have hE : (ensureUserProfile env ctx u a).profileEvents =
        mSet ctx.profileEvents key p.2.2 := by
      rw [hshape]
      dsimp only
      rw [hlp.2.1]
    have hB : (ensureUserProfile env ctx u a).bridgedNostrPubkeys =
        c.bridgedNostrPubkeys := by
      rw [hshape]
    have hP : (ensureUserProfile env ctx u a).platform = ctx.platform := by
      rw [hshape]
      dsimp only
      rw [hlp.2.2]
    refine ⟨?_, ?_, ?_, ?_, ?_, ?_, ?_⟩
    · apply ensure_has_noop
      rw [hU, hP, ← hkey]
      exact mHas_mSet_self _ _ _
    · intro k v hv
      rw [hU]
      exact mGet_mSet_preserved hf hv
    · intro hsync k e he
      rw [hE]
      exact mGet_mSet_preserved (by rw [hsync]; exact hf) he
    · intro k v hv
      rw [hB]
      exact lookup_bridged_preserved env ctx ctx.platform u hv
    · intro _
      rw [hU, hE]
      exact ⟨mGet_mSet_self _ _ _, mGet_mSet_self _ _ _⟩
    · intro hn
      rw [hU, mSet_keys_fresh _ hf]
      have hkm : key ∉ ctx.userProfiles.map Prod.fst := by
        intro hmem
        rw [← mHas_true_iff_mem] at hmem
        rw [hf] at hmem
        exact Bool.false_ne_true hmem
      simp [List.nodup_append, hn, hkm]
    · intro hn
      rw [hE]
      by_cases hh : mHas ctx.profileEvents key = true
      · rw [mSet_keys_stale _ hh]
        exact hn
      · rw [mSet_keys_fresh _ (Bool.eq_false_iff.mpr hh)]
        have hkm : key ∉ ctx.profileEvents.map Prod.fst := by
          intro hmem
          rw [← mHas_true_iff_mem] at hmem
          exact hh hmem
        simp [List.nodup_append, hn, hkm]

/-- Witness for C9: a concrete environment and context holding one earlier
profile, one earlier profile event and one earlier verified binding; ensuring
the fresh user `dan` twice adds exactly the derived entry once and disturbs
nothing. -/
theorem ensureUserProfile_idempotent_witness :
    (ensureUserProfile {} (ensureUserProfile {}
        { userProfiles := [("github:bob", ("pv", "pb"))],
          profileEvents := [("github:bob", { kind := 0 })],
          bridgedNostrPubkeys := [("github:carol", "cpk")] } "dan" "av") "dan" "av2" =
      ensureUserProfile {}
        { userProfiles := [("github:bob", ("pv", "pb"))],
          profileEvents := [("github:bob", { kind := 0 })],
          bridgedNostrPubkeys := [("github:carol", "cpk")] } "dan" "av") ∧
    mGet (ensureUserProfile {}
        { userProfiles := [("github:bob", ("pv", "pb"))],
          profileEvents := [("github:bob", { kind := 0 })],
          bridgedNostrPubkeys := [("github:carol", "cpk")] } "dan" "av").userProfiles
      "github:bob" = some ("pv", "pb") ∧
    mGet (ensureUserProfile {}
        { userProfiles := [("github:bob", ("pv", "pb"))],
          profileEvents := [("github:bob", { kind := 0 })],
          bridgedNostrPubkeys := [("github:carol", "cpk")] } "dan" "av").bridgedNostrPubkeys
      "github:carol" = some "cpk" ∧
    mGet (ensureUserProfile {}
        { userProfiles := [("github:bob", ("pv", "pb"))],
          profileEvents := [("github:bob", { kind := 0 })],
          bridgedNostrPubkeys := [("github:carol", "cpk")] } "dan" "av").userProfiles
      "github:dan" = some ("priv-github:dan", "pub-github:dan") := by
  have h := ensureUserProfile_idempotent {}
    { userProfiles := [("github:bob", ("pv", "pb"))],
      profileEvents := [("github:bob", { kind := 0 })],
      bridgedNostrPubkeys := [("github:carol", "cpk")] } "dan" "av" "av2"
  exact ⟨h.1, h.2.1 "github:bob" ("pv", "pb") (by decide),
    h.2.2.2.1 "github:carol" "cpk" (by decide),
    (h.2.2.2.2.1 (by decide)).1⟩

/-- The outcome of a fresh (uncached) GitHub identity lookup, read off the
fresh path of `lookupNip39BridgedPubkey`: the verified pubkey of the most
recently dated candidate, or `none` on empty results, missing proof tag or
failed gist verification. -/
def freshLookupVerified (env : Env) (username : String) : Option String :=
  match env.fetchNostrEvents ("github:" ++ username) with
  | none => none
  | some [] => none
  | some (e :: es) =>
    let profile := bestCandidate e es
    match candidateProof ("github:" ++ username) profile with
    | none => none
    | some proof =>
      if verifyGitHubGistProof env username proof profile.pubkey then some profile.pubkey
      else none

theorem verify_characterization (env : Env) (u pr pk : String) :
    verifyGitHubGistProof env u pr pk = true ↔
      (proofFormatValid pr = true ∧ ∃ g ol npub, env.fetchGist pr = some g ∧
        g.ownerLogin = some ol ∧ lowerStr ol = lowerStr u ∧
        firstNpub g.files = some npub ∧ env.decodeNpub npub = some pk) := by
  by_cases hfmt : proofFormatValid pr = true
  · cases hg : env.fetchGist pr with
    | none => simp [verifyGitHubGistProof, hfmt, hg]
    | some g =>
      cases hol : g.ownerLogin with
      | none => simp [verifyGitHubGistProof, hfmt, hg, hol]
      | some ol =>
        by_cases hlow : lowerStr ol = lowerStr u
        · cases hnp : firstNpub g.files with
          | none => simp [verifyGitHubGistProof, hfmt, hg, hol, hlow, hnp]
          | some npub =>
            cases hd : env.decodeNpub npub with
            | none => simp [verifyGitHubGistProof, hfmt, hg, hol, hlow, hnp, hd]
            | some dec =>
              simp only [verifyGitHubGistProof, hfmt, hg, hol, hlow, hnp, hd,
                Bool.not_true, Bool.false_eq_true, if_false, ne_eq, not_true_eq_false,
                decide_eq_true_eq, true_and, Option.some.injEq]
              constructor
              · rintro rfl
                exact ⟨g, ol, npub, rfl, hol, hlow, hnp, hd⟩
              · rintro ⟨g', ol', npub', hg', hol', _, hnp', hd'⟩
                cases hg'
                rw [hol] at hol'
                cases hol'
                rw [hnp] at hnp'
                cases hnp'
                rw [hd] at hd'
                cases hd'
                rfl
        · simp only [verifyGitHubGistProof, hfmt, hg, hol, Bool.not_true,
            Bool.false_eq_true, if_false, ne_eq, true_and, Option.some.injEq]
          rw [if_pos (by simp [hlow])]
          simp only [Bool.false_eq_true, false_iff]
          rintro ⟨g', ol', npub', hg', hol', hlow', _, _⟩
          cases hg'
          rw [hol] at hol'
          cases hol'
          exact hlow hlow'
  · have hf : proofFormatValid pr = false := Bool.eq_false_iff.mpr hfmt
    simp [verifyGitHubGistProof, hf]

/-- The shape of the lookup on a fresh GitHub key with a fetch capability:
one remote query, outcome `freshLookupVerified`, and the caches written
according to that outcome. -/
theorem lookup_fresh_shape (env : Env) (ctx : Ctx) (u : String)
    (hplat : ctx.platform = "github")
    (hfetch : ctx.hasFetchEvents = true)
    (hb : mGet ctx.bridgedNostrPubkeys (getProfileMapKey "github" u) = none)
    (hc : ctx.nip39CheckedKeys.contains (getProfileMapKey "github" u) = false) :
    ((lookupNip39BridgedPubkey env ctx "github" u).2 = freshLookupVerified env u) ∧
    ((lookupNip39BridgedPubkey env ctx "github" u).1).nip39Queries = ctx.nip39Queries + 1 ∧
    (∀ pk, freshLookupVerified env u = some pk →
      mGet ((lookupNip39BridgedPubkey env ctx "github" u).1).bridgedNostrPubkeys
        (getProfileMapKey "github" u) = some pk) ∧
    (freshLookupVerified env u = none →
      ((lookupNip39BridgedPubkey env ctx "github" u).1).nip39CheckedKeys.contains
        (getProfileMapKey "github" u) = true ∧
      mGet ((lookupNip39BridgedPubkey env ctx "github" u).1).bridgedNostrPubkeys
        (getProfileMapKey "github" u) = none) := by
  unfold lookupNip39BridgedPubkey
  dsimp only
  rw [hb, hc, hfetch]
  simp only [Bool.not_true, Bool.false_eq_true, if_false, ne_eq, not_true_eq_false,
    Bool.not_false, if_true]
  unfold freshLookupVerified
  cases hfe : env.fetchNostrEvents ("github:" ++ u) with
  | none =>
    dsimp only
    refine ⟨rfl, rfl, ?_, ?_⟩
    · intro pk hpk
      exact Option.noConfusion hpk
    · intro _
      exact ⟨by simp, hb⟩
  | some evs =>
    cases evs with
    | nil =>
      dsimp only
      refine ⟨rfl, rfl, ?_, ?_⟩
      · intro pk hpk
        exact Option.noConfusion hpk
      · intro _
        exact ⟨by simp, hb⟩
    | cons e0 es =>
      dsimp only
      cases hcp : candidateProof ("github:" ++ u) (bestCandidate e0 es) with
      | none =>
        dsimp only
        refine ⟨rfl, rfl, ?_, ?_⟩
        · intro pk hpk
          exact Option.noConfusion hpk
        · intro _
          exact ⟨by simp, hb⟩
      | some proof =>
        dsimp only
        by_cases hv : verifyGitHubGistProof env u proof (bestCandidate e0 es).pubkey = true
        · rw [hv]
          simp only [if_true]
          refine ⟨by trivial, by trivial, ?_, ?_⟩
          · intro pk hpk
            cases hpk
            exact mGet_mSet_self _ _ _
          · intro hn
            exact Option.noConfusion hn
        · have hvf := Bool.eq_false_iff.mpr hv
          rw [hvf]
          simp only [Bool.false_eq_true, if_false]
          refine ⟨by trivial, by trivial, ?_, ?_⟩
          · intro pk hpk
            exact Option.noConfusion hpk
          · intro _
            exact ⟨by simp, hb⟩

/-- A verified fresh outcome always carries a pubkey produced by the npub
decoder (used to justify the source's 64-character guard on the tag). -/
theorem freshLookupVerified_decoded (env : Env) (u : String) {pk : String}
    (h : freshLookupVerified env u = some pk) :
    ∃ npub, env.decodeNpub npub = some pk := by
  unfold freshLookupVerified at h
  cases hfe : env.fetchNostrEvents ("github:" ++ u) with
  | none => rw [hfe] at h; cases h
  | some evs =>
    rw [hfe] at h
    cases evs with
    | nil => cases h
    | cons e0 es =>
      dsimp only at h
      cases hcp : candidateProof ("github:" ++ u) (bestCandidate e0 es) with
      | none => rw [hcp] at h; cases h
      | some proof =>
        rw [hcp] at h
        dsimp only at h
        by_cases hv : verifyGitHubGistProof env u proof (bestCandidate e0 es).pubkey = true
        · rw [hv] at h
          simp only [if_true, Option.some.injEq] at h
          obtain ⟨_, _, _, npub, _, _, _, _, hd⟩ := (verify_characterization env u proof _).mp hv
          exact ⟨npub, h ▸ hd⟩
        · rw [Bool.eq_false_iff.mpr hv] at h
          simp at h

/-- **C5.**  For a `(github, username)` key processed fresh in a run, the
weak reference p-tag is attached if and only if the identity proof verified:
gist verification succeeds exactly when the artifact's owner equals the
username case-insensitively and the npub after the verification sentence
decodes to the claiming profile's pubkey; a verified outcome caches the
binding and makes `addBridgedPTags` append exactly `["p", pubkey]`; any
other outcome (mismatch, fetch failure, malformed artifact, no candidate)
leaves the event untagged and records a negative cache entry; and a
negatively cached key is never looked up again — the call returns with the
context unchanged and no further remote query. -/
theorem nip39_bridging_iff (env : Env) (ctx : Ctx) (u : String) (e : NostrEvent)
    (hplat : ctx.platform = "github")
    (hfetch : ctx.hasFetchEvents = true)
    (hb : mGet ctx.bridgedNostrPubkeys (getProfileMapKey "github" u) = none)
    (hc : ctx.nip39CheckedKeys.contains (getProfileMapKey "github" u) = false)
    (hlen : ∀ s t, env.decodeNpub s = some t → t.length = 64) :
    (∀ pr pk, verifyGitHubGistProof env u pr pk = true ↔
      (proofFormatValid pr = true ∧ ∃ g ol npub, env.fetchGist pr = some g ∧
        g.ownerLogin = some ol ∧ lowerStr ol = lowerStr u ∧
        firstNpub g.files = some npub ∧ env.decodeNpub npub = some pk)) ∧
    ((lookupNip39BridgedPubkey env ctx "github" u).2 = freshLookupVerified env u) ∧
    (∀ pk, freshLookupVerified env u = some pk →
      (addBridgedPTags e "github" u
        ((lookupNip39BridgedPubkey env ctx "github" u).1).bridgedNostrPubkeys).tags =
        e.tags ++ [["p", pk]]) ∧
    (freshLookupVerified env u = none →
      addBridgedPTags e "github" u
        ((lookupNip39BridgedPubkey env ctx "github" u).1).bridgedNostrPubkeys = e ∧
      ((lookupNip39BridgedPubkey env ctx "github" u).1).nip39CheckedKeys.contains
        (getProfileMapKey "github" u) = true) ∧
    (∀ ctx', mGet ctx'.bridgedNostrPubkeys (getProfileMapKey "github" u) = none →
      ctx'.nip39CheckedKeys.contains (getProfileMapKey "github" u) = true →
      lookupNip39BridgedPubkey env ctx' "github" u = (ctx', none)) := by
  obtain ⟨hout, hq, hpos, hneg⟩ := lookup_fresh_shape env ctx u hplat hfetch hb hc
  refine ⟨fun pr pk => verify_characterization env u pr pk, hout, ?_, ?_, ?_⟩
  · intro pk hpk
    have hbp := hpos pk hpk
    obtain ⟨npub, hd⟩ := freshLookupVerified_decoded env u hpk
    have h64 : pk.length = 64 := hlen npub pk hd
    unfold addBridgedPTags
    rw [hbp]
    dsimp only
    rw [if_pos h64]
  · intro hn
    obtain ⟨hck, hbn⟩ := hneg hn
    refine ⟨?_, hck⟩
    unfold addBridgedPTags
    rw [hbn]
  · intro ctx' hb' hc'
    unfold lookupNip39BridgedPubkey
    dsimp only
    rw [hb', hc']
    rfl

/-- A 64-character pubkey for the C5 witness environment. -/
def pkSixtyFour : String := "aaaaaaaaaaaaaaaaaaaaaaaaaaaaaaaaaaaaaaaaaaaaaaaaaaaaaaaaaaaaaaaa"

/-- Witness environment for C5: one candidate profile claiming
`github:Alice`, a gist owned by `alice` whose file attests an npub decoding
to the profile's 64-character pubkey. -/
def envW : Env :=
  { fetchNostrEvents := fun i =>
      if i = "github:Alice" then
        some [{ pubkey := pkSixtyFour, created_at := 5,
                tags := [["i", "github:Alice", "proofid"]] }]
      else some []
    fetchGist := fun p =>
      if p = "proofid" then some { ownerLogin := some "alice", files := [some "npub1x"] }
      else none
    decodeNpub := fun s => if s = "npub1x" then some pkSixtyFour else none }

/-- Witness context for C5: GitHub platform, fetch capability, empty caches. -/
def ctxW : Ctx := { hasFetchEvents := true }

/-- Witness for C5: in the concrete environment the proof verifies, and the
lookup followed by `addBridgedPTags` attaches exactly the weak `p`-tag with
the decoded pubkey. -/
theorem nip39_bridging_iff_witness :
    ctxW.platform = "github" ∧
    freshLookupVerified envW "Alice" = some pkSixtyFour ∧
    (addBridgedPTags {} "github" "Alice"
        ((lookupNip39BridgedPubkey envW ctxW "github" "Alice").1).bridgedNostrPubkeys).tags =
      ({} : NostrEvent).tags ++ [["p", pkSixtyFour]] := by
  have hlen : ∀ s t, envW.decodeNpub s = some t → t.length = 64 := by
    intro s t h
    unfold envW at h
    dsimp only at h
    by_cases hs : s = "npub1x"
    · rw [if_pos hs] at h
      cases h
      decide
    · rw [if_neg hs] at h
      cases h
  have h := nip39_bridging_iff envW ctxW "Alice" {} rfl rfl rfl rfl hlen
  exact ⟨rfl, by decide, h.2.2.1 pkSixtyFour (by decide)⟩

/-! ## C8: orphan comments are never converted -/

/-- Invariant of the comments pipeline: the two parent ID maps are left
untouched, and every parent number appended to the conversion trace was a
key of one of them. -/
def CommentsInv (a b : Ctx) : Prop :=
  b.issueEventIdMap = a.issueEventIdMap ∧ b.prEventIdMap = a.prEventIdMap ∧
  ∃ tl, b.convertedCommentParents = a.convertedCommentParents ++ tl ∧
    ∀ n ∈ tl, mHas a.issueEventIdMap n = true ∨ mHas a.prEventIdMap n = true

theorem commentsInv_refl (a : Ctx) : CommentsInv a a :=
  ⟨rfl, rfl, [], by simp, by simp⟩

theorem commentsInv_of_eq {a b : Ctx} (h1 : b.issueEventIdMap = a.issueEventIdMap)
    (h2 : b.prEventIdMap = a.prEventIdMap)
    (h3 : b.convertedCommentParents = a.convertedCommentParents) : CommentsInv a b :=
  ⟨h1, h2, [], by simp [h3], by simp⟩

theorem commentsInv_trans {a b c : Ctx} (hab : CommentsInv a b) (hbc : CommentsInv b c) :
    CommentsInv a c := by
  obtain ⟨h1, h2, tl1, h3, h4⟩ := hab
  obtain ⟨g1, g2, tl2, g3, g4⟩ := hbc
  refine ⟨g1.trans h1, g2.trans h2, tl1 ++ tl2, ?_, ?_⟩
  · rw [g3, h3, List.append_assoc]
  · intro n hn
    rw [List.mem_append] at hn
    rcases hn with hn | hn
    · exact h4 n hn
    · rcases g4 n hn with hh | hh
      · rw [h1] at hh
        exact Or.inl hh
      · rw [h2] at hh
        exact Or.inr hh

theorem publishOneComment_commentsInv (env : Env) (ctx : Ctx) (cmap : CMap)
    (pid a av pcid : String) :
    CommentsInv ctx (publishOneComment env ctx cmap pid a av pcid).1 := by
  apply commentsInv_of_eq <;> (unfold publishOneComment; dsimp only; simp)

theorem processBulkComment_commentsInv (env : Env) (iN pN : List Nat) (st : Ctx × CMap)
    (c : BulkComment) : CommentsInv st.1 (processBulkComment env iN pN st c).1 := by
  unfold processBulkComment
  dsimp only
  split
  · exact commentsInv_refl _
  case isFalse hskip =>
    split
    case h_1 => exact commentsInv_refl _
    case h_2 pid hpid =>
      refine commentsInv_trans (b :=
        { st.1 with convertedCommentParents := st.1.convertedCommentParents ++ [c.issueNumber] })
        ⟨rfl, rfl, [c.issueNumber], rfl, ?_⟩
        (publishOneComment_commentsInv env _ st.2 pid c.authorLogin c.authorAvatarUrl
          c.platformCommentId)
      intro n hn
      rw [List.mem_singleton] at hn
      subst hn
      by_cases hpr : pN.contains c.issueNumber
      · rw [if_pos hpr] at hpid
        right
        unfold mHas
        rw [hpid]
        rfl
      · rw [if_neg hpr] at hpid
        left
        unfold mHas
        rw [hpid]
        rfl

theorem processBulkComments_commentsInv (env : Env) (iN pN : List Nat) :
    ∀ (l : List BulkComment) (st : Ctx × CMap),
    CommentsInv st.1 (processBulkComments env iN pN st l).1 := by
  intro l
  induction l with
  | nil => intro st; exact commentsInv_refl _
  | cons c rest ih =>
    intro st
    unfold processBulkComments
    exact commentsInv_trans (processBulkComment_commentsInv env iN pN st c) (ih _)

theorem bulkCommentsLoop_commentsInv (env : Env) (iN pN : List Nat) :
    ∀ (fuel page : Nat) (st : Ctx × CMap),
    CommentsInv st.1 (bulkCommentsLoop env iN pN fuel page st).1 := by
  intro fuel
  induction fuel with
  | zero => intro page st; exact commentsInv_refl _
  | succ fuel ih =>
    intro page st
    unfold bulkCommentsLoop
    dsimp only
    have hhead : CommentsInv st.1
        { st.1 with fetchedCommentPages :=
            st.1.fetchedCommentPages ++ [(env.listAllIssueComments page).length] } :=
      commentsInv_of_eq rfl rfl rfl
    split
    · exact hhead
    · have hprocessed := processBulkComments_commentsInv env iN pN
        (sinceFilterBulk st.1.sinceDate (env.listAllIssueComments page))
        ({ st.1 with fetchedCommentPages :=
            st.1.fetchedCommentPages ++ [(env.listAllIssueComments page).length] }, st.2)
      have hstep := commentsInv_trans hhead hprocessed
      have hprog : CommentsInv st.1
          (progress (processBulkComments env iN pN
            ({ st.1 with fetchedCommentPages :=
                st.1.fetchedCommentPages ++ [(env.listAllIssueComments page).length] }, st.2)
            (sinceFilterBulk st.1.sinceDate (env.listAllIssueComments page))).1
            (some (processBulkComments env iN pN
              ({ st.1 with fetchedCommentPages :=
                  st.1.fetchedCommentPages ++ [(env.listAllIssueComments page).length] }, st.2)
              (sinceFilterBulk st.1.sinceDate (env.listAllIssueComments page))).1.commentsPublished)) :=
        commentsInv_trans hstep (commentsInv_of_eq (by simp) (by simp) (by simp))
      split
      · exact hprog
      · exact commentsInv_trans hprog (ih (page + 1) _)

theorem processFallbackComment_commentsInv (env : Env) (pn : Nat) (pid : String)
    (st : Ctx × CMap) (c : Comment)
    (hpn : mHas st.1.issueEventIdMap pn = true ∨ mHas st.1.prEventIdMap pn = true) :
    CommentsInv st.1 (processFallbackComment env pn pid st c).1 := by
  unfold processFallbackComment
  have hstep : CommentsInv st.1
      { st.1 with convertedCommentParents := st.1.convertedCommentParents ++ [pn] } := by
    refine ⟨rfl, rfl, [pn], rfl, ?_⟩
    intro n hn
    rw [List.mem_singleton] at hn
    subst hn
    exact hpn
  split
  · split
    · exact commentsInv_refl _
    · exact commentsInv_trans hstep
        (publishOneComment_commentsInv env _ st.2 pid c.authorLogin c.authorAvatarUrl
          c.platformCommentId)
  · exact commentsInv_trans hstep
      (publishOneComment_commentsInv env _ st.2 pid c.authorLogin c.authorAvatarUrl
        c.platformCommentId)

theorem foldFallback_commentsInv (env : Env) (pn : Nat) (pid : String) :
    ∀ (l : List Comment) (st : Ctx × CMap),
    (mHas st.1.issueEventIdMap pn = true ∨ mHas st.1.prEventIdMap pn = true) →
    CommentsInv st.1 (l.foldl (processFallbackComment env pn pid) st).1 := by
  intro l
  induction l with
  | nil => intro st _; exact commentsInv_refl _
  | cons c rest ih =>
    intro st hpn
    rw [List.foldl_cons]
    have h1 := processFallbackComment_commentsInv env pn pid st c hpn
    refine commentsInv_trans h1 (ih _ ?_)
    rcases hpn with hh | hh
    · exact Or.inl (h1.1 ▸ hh)
    · exact Or.inr (h1.2.1 ▸ hh)

theorem fallbackParentLoop_commentsInv (env : Env) (isPR : Bool) (pn : Nat) (pid : String) :
    ∀ (fuel page : Nat) (st : Ctx × CMap),
    (mHas st.1.issueEventIdMap pn = true ∨ mHas st.1.prEventIdMap pn = true) →
    CommentsInv st.1 (fallbackParentLoop env isPR pn pid fuel page st).1 := by
  intro fuel
  induction fuel with
  | zero => intro page st _; exact commentsInv_refl _
  | succ fuel ih =>
    intro page st hpn
    unfold fallbackParentLoop
    dsimp only
    generalize (if isPR = true then env.listPullRequestComments pn page
      else env.listIssueComments pn page) = pageComments
    have hhead : CommentsInv st.1
        { st.1 with fetchedCommentPages :=
            st.1.fetchedCommentPages ++ [pageComments.length] } :=
      commentsInv_of_eq rfl rfl rfl
    split
    · exact hhead
    · have hfold := foldFallback_commentsInv env pn pid pageComments
        ({ st.1 with fetchedCommentPages :=
            st.1.fetchedCommentPages ++ [pageComments.length] }, st.2)
        hpn
      have hstep := commentsInv_trans hhead hfold
      split
      · exact hstep
      · refine commentsInv_trans hstep (ih (page + 1) _ ?_)
        rcases hpn with hh | hh
        · exact Or.inl (hstep.1 ▸ hh)
        · exact Or.inr (hstep.2.1 ▸ hh)

theorem fallbackParents_commentsInv (env : Env) (isPR : Bool) (fuel : Nat) :
    ∀ (parents : List Nat) (ctx : Ctx),
    CommentsInv ctx (fallbackParents env isPR fuel ctx parents) := by
  intro parents
  induction parents with
  | nil => intro ctx; exact commentsInv_refl _
  | cons n rest ih =>
    intro ctx
    unfold fallbackParents
    dsimp only
    split
    · exact ih ctx
    case h_2 eid heid =>
      have hpn : mHas ctx.issueEventIdMap n = true ∨ mHas ctx.prEventIdMap n = true := by
        by_cases hisPR : isPR = true
        · rw [hisPR] at heid
          simp only [if_true] at heid
          right
          unfold mHas
          rw [heid]
          rfl
        · rw [Bool.eq_false_iff.mpr hisPR] at heid
          simp only [Bool.false_eq_true, if_false] at heid
          left
          unfold mHas
          rw [heid]
          rfl
      have hloop := fallbackParentLoop_commentsInv env isPR n eid fuel 1 (ctx, []) hpn
      exact commentsInv_trans hloop (ih _)

/-- **C8.**  Under both comment strategies — the bulk endpoint and the
per-parent fallback — a comment whose parent number is a key of neither the
issue ID map nor the PR ID map is never converted (hence never signed,
enqueued or published; conversion is the gate all of those sit behind):
every parent number the pipeline appends to the conversion trace was a key
of one of the two maps at pipeline entry, and the pipeline leaves both maps
unchanged. -/
theorem comments_orphan_skip (env : Env) (fuel : Nat) (ctx : Ctx)
    (iN pN : List Nat) :
    (fetchAndPublishCommentsStreaming env fuel ctx iN pN).issueEventIdMap =
      ctx.issueEventIdMap ∧
    (fetchAndPublishCommentsStreaming env fuel ctx iN pN).prEventIdMap =
      ctx.prEventIdMap ∧
    ∀ n ∈ (fetchAndPublishCommentsStreaming env fuel ctx iN pN).convertedCommentParents,
      n ∈ ctx.convertedCommentParents ∨
      mHas ctx.issueEventIdMap n = true ∨ mHas ctx.prEventIdMap n = true := by
  have hinv : CommentsInv ctx (fetchAndPublishCommentsStreaming env fuel ctx iN pN) := by
    unfold fetchAndPublishCommentsStreaming
    dsimp only
    split
    · exact commentsInv_refl _
    · have hprog : CommentsInv ctx (progress ctx none) := commentsInv_of_eq rfl rfl rfl
      split
      · refine commentsInv_trans hprog ?_
        refine commentsInv_trans (bulkCommentsLoop_commentsInv env iN pN fuel 1
          (progress ctx none, [])) ?_
        exact commentsInv_of_eq (by simp) (by simp) (by simp)
      · refine commentsInv_trans hprog ?_
        refine commentsInv_trans (fallbackParents_commentsInv env false fuel iN
          (progress ctx none)) ?_
        refine commentsInv_trans (fallbackParents_commentsInv env true fuel pN _) ?_
        exact commentsInv_of_eq (by simp) (by simp) (by simp)
  obtain ⟨h1, h2, tl, h3, h4⟩ := hinv
  refine ⟨h1, h2, ?_⟩
  intro n hn
  rw [h3, List.mem_append] at hn
  rcases hn with hn | hn
  · exact Or.inl hn
  · exact Or.inr (h4 n hn)

/-- Witness environment for C8: the bulk endpoint offers one orphan comment
(parent 7, in neither map) and one valid comment (parent 1, in the issue
map). -/
def envC8 : Env :=
  { listAllIssueComments := fun page =>
      if page = 1 then
        [{ platformCommentId := "c1", authorLogin := "z", issueNumber := 7 },
         { platformCommentId := "c2", authorLogin := "z", issueNumber := 1 }]
      else [] }

/-- Witness context for C8: the issue map knows only parent 1. -/
def ctxC8 : Ctx := { issueEventIdMap := [(1, "eid1")] }

/-- Witness for C8: only parent 1 is ever converted — the orphan parent 7 is
skipped — and the converted parent was indeed a key of the issue map. -/
theorem comments_orphan_skip_witness :
    (fetchAndPublishCommentsStreaming envC8 5 ctxC8 [1] []).convertedCommentParents = [1] ∧
    (1 ∈ ctxC8.convertedCommentParents ∨
      mHas ctxC8.issueEventIdMap 1 = true ∨ mHas ctxC8.prEventIdMap 1 = true) := by
  refine ⟨by decide, ?_⟩
  have h := comments_orphan_skip envC8 5 ctxC8 [1] []
  exact h.2.2 1 (by decide)

/-! ## C6: fork-required failure publishes nothing -/

/-- **C6.**  When the authenticated user does not own the source repository
and forking is disabled in the config, `importRepository` fails right after
the ownership check with the fork-required error, and at that point nothing
has been published or even queued: the run's published trace and event queue
are both empty (state-unchanged-on-error for this failure). -/
theorem fork_required_atomic (env : Env) (cfg : Cfg) (fuel : Nat)
    (ht : isBlank cfg.token = false)
    (hv : env.tokenValid = true) (hr : env.tokenHasRead = true)
    (ho : env.isOwner = false) (hf : cfg.forkRepoCfg = false) :
    (importRepository env cfg fuel).1 = .error .forkRequired ∧
    (importRepository env cfg fuel).2.published = [] ∧
    (importRepository env cfg fuel).2.eventQueue = [] ∧
    (importRepository env cfg fuel).2.pipelineEvents = [] := by
  unfold importRepository
  dsimp only
  rw [ht, hv, hr, ho, hf]
  simp only [Bool.false_eq_true, if_false, Bool.not_true, Bool.not_false, Bool.and_self,
    if_true]
  refine ⟨?_, ?_, ?_, ?_⟩ <;> first | rfl | trivial

/-- Witness environment for C6: a non-owner. -/
def envC6 : Env := { isOwner := false }

/-- Witness for C6 at a concrete non-owner run with forking disabled. -/
theorem fork_required_atomic_witness :
    (importRepository envC6 { forkRepoCfg := false } 5).1 = .error .forkRequired ∧
    (importRepository envC6 { forkRepoCfg := false } 5).2.published = [] ∧
    (importRepository envC6 { forkRepoCfg := false } 5).2.eventQueue = [] := by
  have h := fork_required_atomic envC6 { forkRepoCfg := false } 5
    (by decide) rfl rfl rfl rfl
  exact ⟨h.1, h.2.1, h.2.2.1⟩

/-! ## C3: an EventIO alone cannot complete a run -/

/-- Without an `onSignEvent` callback no run can succeed: every orchestrator
path either fails before `publishRepoEvents` or fails inside it, because the
repo announcement and state events need their IDs and `EventIO` cannot
return a signed event.  When the run does reach `publishRepoEvents` (valid
non-blank token with read scope, owner-or-fork, non-empty relay list) and an
`EventIO` is configured, the error is precisely the distinguished
EventIO-cannot-sign error. -/
theorem eventIO_only_cannot_complete (env : Env) (cfg : Cfg) (fuel : Nat)
    (hs : cfg.hasSignEvent = false) :
    importOk (importRepository env cfg fuel) = false ∧
    (cfg.hasEventIo = true → isBlank cfg.token = false → env.tokenValid = true →
      env.tokenHasRead = true → (env.isOwner = true ∨ cfg.forkRepoCfg = true) →
      cfg.relays ≠ [] →
      (importRepository env cfg fuel).1 = .error .eventIOCannotSignRepo) := by
  constructor
  · unfold importRepository
    dsimp only
    split
    · rfl
    split
    · rfl
    split
    · rfl
    split
    · rfl
    split
    case h_1 => rfl
    case h_2 ann state heq =>
      split
      case h_1 => rfl
      case h_2 ctx2 sAnn sState heq2 =>
        exfalso
        simp only [publishRepoEvents, initCtx, hs, Bool.false_eq_true, if_false] at heq2
        split at heq2 <;> cases heq2
  · intro he ht hv hr how hrel
    unfold importRepository
    dsimp only
    rw [ht, hv, hr]
    simp only [Bool.false_eq_true, if_false, Bool.not_true, Bool.not_false, if_true]
    have hfork : (!env.isOwner && !cfg.forkRepoCfg) = false := by
      rcases how with hh | hh <;> simp [hh]
    rw [hfork]
    simp only [Bool.false_eq_true, if_false]
    split
    case h_1 e heq =>
      exfalso
      simp only [convertRepoEvents, initCtx] at heq
      rw [if_neg hrel] at heq
      cases heq
    case h_2 ann state heq =>
      split
      case h_1 e heq2 =>
        simp only [publishRepoEvents, initCtx, hs, he, Bool.false_eq_true, if_false,
          if_true] at heq2
        cases heq2
        rfl
      case h_2 ctx2 sAnn sState heq2 =>
        exfalso
        simp only [publishRepoEvents, initCtx, hs, Bool.false_eq_true, if_false] at heq2
        split at heq2 <;> cases heq2

/-- Witness configuration for C3's amended statement: only an `EventIO`. -/
def cfgC3 : Cfg := { hasSignEvent := false, hasPublishEvent := false, hasEventIo := true }

/-- Witness for C3's amended statement at a concrete EventIO-only run. -/
theorem eventIO_only_cannot_complete_witness :
    importOk (importRepository {} cfgC3 5) = false ∧
    (importRepository {} cfgC3 5).1 = .error .eventIOCannotSignRepo := by
  have h := eventIO_only_cannot_complete {} cfgC3 5 rfl
  exact ⟨h.1, h.2 rfl (by decide) rfl rfl (Or.inl rfl) (by decide)⟩

/-- Counterexample for C3 as stated: a run configured with only an
`EventIO` and neither callback does not sign and publish the repository
events — it fails with the EventIO-cannot-sign error instead of completing. -/
theorem eventIO_only_counterexample :
    (importRepository {} cfgC3 5).1 = .error .eventIOCannotSignRepo := rfl

/-! ## C4: pagination stop conditions -/

theorem processPR_loopFields (env : Env) (fuel : Nat) (ctx : Ctx) (pr : PullRequest) :
    (processPR env fuel ctx pr).fetchedPrPages = ctx.fetchedPrPages ∧
    (processPR env fuel ctx pr).sinceDate = ctx.sinceDate := by
  unfold processPR
  dsimp only
  constructor <;> simp

theorem processPRs_loopFields (env : Env) (fuel : Nat) :
    ∀ (l : List PullRequest) (ctx : Ctx),
    (processPRs env fuel ctx l).fetchedPrPages = ctx.fetchedPrPages ∧
    (processPRs env fuel ctx l).sinceDate = ctx.sinceDate := by
  intro l
  induction l with
  | nil => intro ctx; exact ⟨rfl, rfl⟩
  | cons pr rest ih =>
    intro ctx
    unfold processPRs
    obtain ⟨h1, h2⟩ := processPR_loopFields env fuel ctx pr
    obtain ⟨g1, g2⟩ := ih (processPR env fuel ctx pr)
    exact ⟨g1.trans h1, g2.trans h2⟩

theorem prsLoop_fetched_mono (env : Env) :
    ∀ (fuel page : Nat) (ctx : Ctx),
    ctx.fetchedPrPages.length ≤ (prsLoop env fuel page ctx).fetchedPrPages.length := by
  intro fuel
  induction fuel with
  | zero => intro page ctx; exact Nat.le_refl _
  | succ fuel ih =>
    intro page ctx
    unfold prsLoop
    dsimp only
    have hlen : ctx.fetchedPrPages.length ≤
        (ctx.fetchedPrPages ++ [(env.listPRs page).length]).length := by
      simp
    split
    · exact hlen
    · have hpp := (processPRs_loopFields env fuel
        (sinceFilterPRs ctx.sinceDate (env.listPRs page))
        { ctx with fetchedPrPages := ctx.fetchedPrPages ++ [(env.listPRs page).length] }).1
      split
      · rw [hpp]
        exact hlen
      · refine Nat.le_trans ?_ (ih (page + 1) _)
        rw [hpp]
        exact hlen

theorem prsLoop_fetched_ge_one (env : Env) :
    ∀ (fuel page : Nat) (ctx : Ctx),
    ctx.fetchedPrPages.length + 1 ≤ (prsLoop env (fuel + 1) page ctx).fetchedPrPages.length := by
  intro fuel page ctx
  unfold prsLoop
  dsimp only
  have hlen : (ctx.fetchedPrPages ++ [(env.listPRs page).length]).length =
      ctx.fetchedPrPages.length + 1 := by simp
  split
  · rw [hlen]
  · have hpp := (processPRs_loopFields env fuel
      (sinceFilterPRs ctx.sinceDate (env.listPRs page))
      { ctx with fetchedPrPages := ctx.fetchedPrPages ++ [(env.listPRs page).length] }).1
    split
    · rw [hpp]
      exact hlen.ge
    · refine Nat.le_trans ?_ (prsLoop_fetched_mono env fuel (page + 1) _)
      rw [hpp]
      exact hlen.ge

theorem publishStatusEvents_fields (env : Env) :
    ∀ (l : List NostrEvent) (ctx : Ctx),
    ((publishStatusEvents env ctx l).1).hasSignEvent = ctx.hasSignEvent ∧
    ((publishStatusEvents env ctx l).1).fetchedIssuePages = ctx.fetchedIssuePages ∧
    (ctx.hasSignEvent = true → (publishStatusEvents env ctx l).2 = none) := by
  intro l
  induction l with
  | nil => intro ctx; exact ⟨rfl, rfl, fun _ => rfl⟩
  | cons s rest ih =>
    intro ctx
    unfold publishStatusEvents
    by_cases h : ctx.hasSignEvent = true
    · rw [if_pos h]
      dsimp only
      obtain ⟨g1, g2, g3⟩ := ih
        { publishEventBatched (recordPipelineEvent ctx (signByUser ctx s)) (signByUser ctx s) with
          currentTimestamp :=
            (publishEventBatched (recordPipelineEvent ctx (signByUser ctx s))
              (signByUser ctx s)).currentTimestamp + 1
          statusEventsPublished :=
            (publishEventBatched (recordPipelineEvent ctx (signByUser ctx s))
              (signByUser ctx s)).statusEventsPublished + 1 }
      refine ⟨g1.trans (by simp [h]), g2.trans (by simp), fun _ => g3 (by simp [h])⟩
    · rw [if_neg h]
      by_cases hio : ctx.hasEventIo = true
      · rw [if_pos hio]
        by_cases hok : env.eventIOOk = true
        · rw [if_neg (by simp [hok])]
          dsimp only
          obtain ⟨g1, g2, g3⟩ := ih
            { recordPipelineEvent ctx (signByUser ctx s) with
              published := (recordPipelineEvent ctx (signByUser ctx s)).published ++
                [signByUser ctx s]
              currentTimestamp :=
                (recordPipelineEvent ctx (signByUser ctx s)).currentTimestamp + 1
              statusEventsPublished :=
                (recordPipelineEvent ctx (signByUser ctx s)).statusEventsPublished + 1 }
          refine ⟨g1.trans (by simp), g2.trans (by simp), fun hh => absurd hh h⟩
        · rw [if_pos (by simp [Bool.eq_false_iff.mpr hok])]
          exact ⟨rfl, rfl, fun hh => absurd hh h⟩
      · rw [if_neg hio]
        exact ⟨rfl, rfl, fun hh => absurd hh h⟩

theorem issueCore_loopFields (env : Env) (ctx : Ctx) (issue : Issue) :
    ((issueCore env ctx issue).1).hasSignEvent = ctx.hasSignEvent ∧
    ((issueCore env ctx issue).1).fetchedIssuePages = ctx.fetchedIssuePages := by
  unfold issueCore
  dsimp only
  constructor <;> simp

theorem processIssue_noerr (env : Env) (ctx : Ctx) (issue : Issue)
    (h : ctx.hasSignEvent = true) :
    (processIssue env ctx issue).2 = none ∧
    ((processIssue env ctx issue).1).hasSignEvent = true ∧
    ((processIssue env ctx issue).1).fetchedIssuePages = ctx.fetchedIssuePages := by
  obtain ⟨hc1, hc2⟩ := issueCore_loopFields env ctx issue
  have hst := publishStatusEvents_fields env
    (convertIssueStatusEvents env (issueCore env ctx issue).1 (issueCore env ctx issue).2.id issue)
    (issueCore env ctx issue).1
  unfold processIssue
  dsimp only
  split
  case h_1 ctx1 e heq =>
    exfalso
    rw [heq] at hst
    have := hst.2.2 (by rw [hc1]; exact h)
    exact Option.noConfusion this
  case h_2 ctx1 heq =>
    rw [heq] at hst
    dsimp only at hst
    refine ⟨rfl, by simp [hst.1, hc1, h], ?_⟩
    simp only [progress_apply]
    rw [hst.2.1, hc2]

theorem processIssues_noerr (env : Env) :
    ∀ (l : List Issue) (ctx : Ctx), ctx.hasSignEvent = true →
    (processIssues env ctx l).2 = none ∧
    ((processIssues env ctx l).1).hasSignEvent = true ∧
    ((processIssues env ctx l).1).fetchedIssuePages = ctx.fetchedIssuePages := by
  intro l
  induction l with
  | nil => intro ctx h; exact ⟨rfl, h, rfl⟩
  | cons i rest ih =>
    intro ctx h
    unfold processIssues
    obtain ⟨h1, h2, h3⟩ := processIssue_noerr env ctx i h
    split
    case h_1 ctx1 e heq =>
      exfalso
      rw [heq] at h1
      exact Option.noConfusion h1
    case h_2 ctx1 heq =>
      have h2' : ctx1.hasSignEvent = true := by rw [heq] at h2; exact h2
      have h3' : ctx1.fetchedIssuePages = ctx.fetchedIssuePages := by
        rw [heq] at h3; exact h3
      obtain ⟨g1, g2, g3⟩ := ih ctx1 h2'
      exact ⟨g1, g2, g3.trans h3'⟩

theorem issuesLoop_fetched_mono (env : Env) :
    ∀ (fuel page : Nat) (ctx : Ctx), ctx.hasSignEvent = true →
    ctx.fetchedIssuePages.length ≤ ((issuesLoop env fuel page ctx).1).fetchedIssuePages.length := by
  intro fuel
  induction fuel with
  | zero => intro page ctx _; exact Nat.le_refl _
  | succ fuel ih =>
    intro page ctx h
    unfold issuesLoop
    dsimp only
    have hlen : ctx.fetchedIssuePages.length ≤
        (ctx.fetchedIssuePages ++ [(env.listIssues page).length]).length := by simp
    split
    · exact hlen
    · obtain ⟨h1, h2, h3⟩ := processIssues_noerr env
        (sinceFilterIssues ctx.sinceDate (env.listIssues page))
        { ctx with fetchedIssuePages := ctx.fetchedIssuePages ++ [(env.listIssues page).length] }
        (by simpa using h)
      split
      case h_1 ctx1 e heq =>
        rw [heq] at h3
        dsimp only at h3
        rw [h3]
        exact hlen
      case h_2 ctx1 heq =>
        rw [heq] at h2 h3
        dsimp only at h2 h3
        refine Nat.le_trans ?_ (ih (page + 1) ctx1 h2)
        rw [h3]
        exact hlen

theorem issuesLoop_fetched_ge_one (env : Env) :
    ∀ (fuel page : Nat) (ctx : Ctx), ctx.hasSignEvent = true →
    ctx.fetchedIssuePages.length + 1 ≤
      ((issuesLoop env (fuel + 1) page ctx).1).fetchedIssuePages.length := by
  intro fuel page ctx h
  unfold issuesLoop
  dsimp only
  have hlen : (ctx.fetchedIssuePages ++ [(env.listIssues page).length]).length =
      ctx.fetchedIssuePages.length + 1 := by simp
  split
  · rw [hlen]
  · obtain ⟨h1, h2, h3⟩ := processIssues_noerr env
      (sinceFilterIssues ctx.sinceDate (env.listIssues page))
      { ctx with fetchedIssuePages := ctx.fetchedIssuePages ++ [(env.listIssues page).length] }
      (by simpa using h)
    split
    case h_1 ctx1 e heq =>
      rw [heq] at h3
      dsimp only at h3
      rw [h3]
      exact hlen.ge
    case h_2 ctx1 heq =>
      rw [heq] at h2 h3
      dsimp only at h2 h3
      refine Nat.le_trans ?_ (issuesLoop_fetched_mono env fuel (page + 1) ctx1 h2)
      rw [h3]
      exact hlen.ge

/-- `publishOneComment` never touches the fetched-comment-pages trace. -/
theorem publishOneComment_fetched (env : Env) (ctx : Ctx) (cmap : CMap)
    (pid a av cid : String) :
    (publishOneComment env ctx cmap pid a av cid).1.fetchedCommentPages =
      ctx.fetchedCommentPages := by
  unfold publishOneComment
  dsimp only
  simp

/-- The bulk per-comment body never touches the fetched-comment-pages trace. -/
theorem processBulkComment_fetched (env : Env) (issueNumbers prNumbers : List Nat)
    (st : Ctx × CMap) (c : BulkComment) :
    (processBulkComment env issueNumbers prNumbers st c).1.fetchedCommentPages =
      st.1.fetchedCommentPages := by
  unfold processBulkComment
  dsimp only
  split
  · rfl
  · split
    · rfl
    · simp [publishOneComment_fetched]

/-- Processing a filtered bulk page never touches the fetched-pages trace. -/
theorem processBulkComments_fetched (env : Env) (issueNumbers prNumbers : List Nat) :
    ∀ (l : List BulkComment) (st : Ctx × CMap),
    (processBulkComments env issueNumbers prNumbers st l).1.fetchedCommentPages =
      st.1.fetchedCommentPages := by
  intro l
  induction l with
  | nil => intro st; rfl
  | cons c rest ih =>
    intro st
    unfold processBulkComments
    exact (ih _).trans (processBulkComment_fetched env issueNumbers prNumbers st c)

/-- The bulk-comments page loop never shortens its fetched-pages trace. -/
theorem bulkLoop_fetched_mono (env : Env) (issueNumbers prNumbers : List Nat) :
    ∀ (fuel page : Nat) (st : Ctx × CMap),
    st.1.fetchedCommentPages.length ≤
      (bulkCommentsLoop env issueNumbers prNumbers fuel page st).1.fetchedCommentPages.length := by
  intro fuel
  induction fuel with
  | zero => intro page st; exact Nat.le_refl _
  | succ fuel ih =>
    intro page st
    unfold bulkCommentsLoop
    dsimp only
    have hlen : st.1.fetchedCommentPages.length ≤
        (st.1.fetchedCommentPages ++ [(env.listAllIssueComments page).length]).length := by
      simp
    split
    · exact hlen
    · have hpp := processBulkComments_fetched env issueNumbers prNumbers
        (sinceFilterBulk st.1.sinceDate (env.listAllIssueComments page))
        ({ st.1 with fetchedCommentPages :=
            st.1.fetchedCommentPages ++ [(env.listAllIssueComments page).length] }, st.2)
      split
      · simp only [progress_apply]
        rw [hpp]
        exact hlen
      · refine Nat.le_trans ?_ (ih (page + 1) _)
        simp only [progress_apply]
        rw [hpp]
        exact hlen

/-- With fuel left, the bulk-comments page loop always fetches at least one
more page. -/
theorem bulkLoop_fetched_ge_one (env : Env) (issueNumbers prNumbers : List Nat) :
    ∀ (fuel page : Nat) (st : Ctx × CMap),
    st.1.fetchedCommentPages.length + 1 ≤
      (bulkCommentsLoop env issueNumbers prNumbers (fuel + 1) page st).1.fetchedCommentPages.length := by
  intro fuel page st
  unfold bulkCommentsLoop
  dsimp only
  have hlen : (st.1.fetchedCommentPages ++ [(env.listAllIssueComments page).length]).length =
      st.1.fetchedCommentPages.length + 1 := by simp
  split
  · rw [hlen]
  · have hpp := processBulkComments_fetched env issueNumbers prNumbers
      (sinceFilterBulk st.1.sinceDate (env.listAllIssueComments page))
      ({ st.1 with fetchedCommentPages :=
          st.1.fetchedCommentPages ++ [(env.listAllIssueComments page).length] }, st.2)
    split
    · simp only [progress_apply]
      rw [hpp]
      exact hlen.ge
    · refine Nat.le_trans ?_ (bulkLoop_fetched_mono env issueNumbers prNumbers fuel (page + 1) _)
      simp only [progress_apply]
      rw [hpp]
      exact hlen.ge

/-- Counterexample environment for C4: page 1 of the PR list is full (100
PRs) but every PR predates the since-date; page 2 holds a newer PR. -/
def envC4 : Env :=
  { listPRs := fun page =>
      if page = 1 then
        (List.range 100).map (fun i => { number := i + 1, authorLogin := "b", createdAt := 0 })
      else if page = 2 then [{ number := 101, authorLogin := "b", createdAt := 2000 }]
      else [] }

/-- Counterexample context for C4: a since-date newer than all of page 1. -/
def ctxC4 : Ctx := { sinceDate := some 1000 }

/-- Counterexample for C4 as stated: the PR pipeline fetches only page 1 —
a full page whose items are all older than the since-date terminates
pagination, so the client-side filter does affect whether the next page is
requested (page 2, which exists and is non-empty, is never fetched). -/
theorem pr_pagination_counterexample :
    (fetchAndPublishPRsStreaming envC4 10 ctxC4).fetchedPrPages = [100] ∧
    (envC4.listPRs 1).length = 100 ∧ (envC4.listPRs 2).length = 1 := by
  refine ⟨by decide, by decide, by decide⟩

/-- **C4 (amended).**  Pagination stop conditions, per pipeline: the PR page
loop requests the next page exactly when the current raw page was full AND
its since-date-filtered remainder is non-empty — so a full page whose items
are all older than the since-date terminates PR pagination; the issues page
loop, by contrast, requests the next page exactly when the current raw page
was non-empty, and the bulk-comments page loop exactly when the current raw
page was full — for both of these the since-date filter is applied after
fetching and never affects pagination (their stop conditions mention only
the raw page, for every since-date and threading state). -/
theorem pagination_stop_characterization (env : Env) (ctx : Ctx) (page fuel : Nat)
    (issueNumbers prNumbers : List Nat) (cmap : CMap)
    (hs : ctx.hasSignEvent = true) :
    (ctx.fetchedPrPages.length + 2 ≤
        (prsLoop env (fuel + 2) page ctx).fetchedPrPages.length ↔
      (sinceFilterPRs ctx.sinceDate (env.listPRs page) ≠ [] ∧
        100 ≤ (env.listPRs page).length)) ∧
    (ctx.fetchedIssuePages.length + 2 ≤
        ((issuesLoop env (fuel + 2) page ctx).1).fetchedIssuePages.length ↔
      env.listIssues page ≠ []) ∧
    (ctx.fetchedCommentPages.length + 2 ≤
        ((bulkCommentsLoop env issueNumbers prNumbers (fuel + 2) page
          (ctx, cmap)).1).fetchedCommentPages.length ↔
      100 ≤ (env.listAllIssueComments page).length) := by
  refine ⟨?_, ?_, ?_⟩
  · rw [show fuel + 2 = (fuel + 1) + 1 from rfl]
    unfold prsLoop
    dsimp only
    by_cases hfil : (sinceFilterPRs ctx.sinceDate (env.listPRs page)).length = 0
    · rw [if_pos hfil]
      simp only [List.length_append, List.length_singleton]
      constructor
      · intro hh
        omega
      · rintro ⟨hne, _⟩
        exact absurd (List.eq_nil_of_length_eq_zero hfil) hne
    · rw [if_neg hfil]
      have hpp := (processPRs_loopFields env (fuel + 1)
        (sinceFilterPRs ctx.sinceDate (env.listPRs page))
        { ctx with fetchedPrPages := ctx.fetchedPrPages ++ [(env.listPRs page).length] }).1
      by_cases hshort : (env.listPRs page).length < 100
      · rw [if_pos hshort]
        rw [hpp]
        simp only [List.length_append, List.length_singleton]
        constructor
        · intro hh
          omega
        · rintro ⟨_, hfull⟩
          omega
      · rw [if_neg hshort]
        constructor
        · intro _
          exact ⟨fun hh => hfil (by rw [hh]; rfl), Nat.le_of_not_lt hshort⟩
        · intro _
          refine Nat.le_trans ?_ (prsLoop_fetched_ge_one env fuel (page + 1) _)
          rw [hpp]
          simp
  · rw [show fuel + 2 = (fuel + 1) + 1 from rfl]
    unfold issuesLoop
    dsimp only
    by_cases hemp : (env.listIssues page).length = 0
    · rw [if_pos hemp]
      simp only [List.length_append, List.length_singleton]
      constructor
      · intro hh
        omega
      · intro hne
        exact absurd (List.eq_nil_of_length_eq_zero hemp) hne
    · rw [if_neg hemp]
      obtain ⟨h1, h2, h3⟩ := processIssues_noerr env
        (sinceFilterIssues ctx.sinceDate (env.listIssues page))
        { ctx with fetchedIssuePages := ctx.fetchedIssuePages ++ [(env.listIssues page).length] }
        (by simpa using hs)
      split
      next ctx1 e heq =>
        exfalso
        rw [heq] at h1
        exact Option.noConfusion h1
      next ctx1 heq =>
        rw [heq] at h2 h3
        dsimp only at h2 h3
        constructor
        · intro _
          intro hh
          exact hemp (by rw [hh]; rfl)
        · intro _
          refine Nat.le_trans ?_ (issuesLoop_fetched_ge_one env fuel (page + 1) ctx1 h2)
          rw [h3]
          simp
  · rw [show fuel + 2 = (fuel + 1) + 1 from rfl]
    unfold bulkCommentsLoop
    dsimp only
    by_cases hemp : (env.listAllIssueComments page).length = 0
    · rw [if_pos hemp]
      simp only [List.length_append, List.length_singleton]
      constructor
      · intro hh
        omega
      · intro hfull
        omega
    · rw [if_neg hemp]
      have hpp := processBulkComments_fetched env issueNumbers prNumbers
        (sinceFilterBulk ctx.sinceDate (env.listAllIssueComments page))
        ({ ctx with fetchedCommentPages :=
            ctx.fetchedCommentPages ++ [(env.listAllIssueComments page).length] }, cmap)
      by_cases hshort : (env.listAllIssueComments page).length < 100
      · rw [if_pos hshort]
        simp only [progress_apply]
        rw [hpp]
        simp only [List.length_append, List.length_singleton]
        constructor
        · intro hh
          omega
        · intro hfull
          omega
      · rw [if_neg hshort]
        constructor
        · intro _
          exact Nat.le_of_not_lt hshort
        · intro _
          refine Nat.le_trans ?_
            (bulkLoop_fetched_ge_one env issueNumbers prNumbers fuel (page + 1) _)
          simp only [progress_apply]
          rw [hpp]
          simp

/-- Witness for C4's amended statement at the counterexample environment:
for the fully-filtered full PR page the characterization's right side is
false, matching the observed single fetch; for an issues provider with the
same shape the loop does continue. -/
theorem pagination_stop_characterization_witness :
    (¬(ctxC4.fetchedPrPages.length + 2 ≤
        (prsLoop envC4 2 1 ctxC4).fetchedPrPages.length) ∧
      ¬(sinceFilterPRs ctxC4.sinceDate (envC4.listPRs 1) ≠ [] ∧
        100 ≤ (envC4.listPRs 1).length)) := by
  have h := (pagination_stop_characterization envC4 ctxC4 1 0 [] [] [] rfl).1
  constructor
  · intro hh
    have := h.mp hh
    exact absurd rfl this.1
  · intro hh
    have := h.mpr hh
    revert this
    decide

/-! ## C2: issues pipeline characterization -/

/-- The raw page lengths the issues page loop fetches: one length per
iteration, ending with the empty page that stops the loop (or with fuel
exhaustion). -/
def issuesPagesTrace (env : Env) : Nat → Nat → List Nat
  | 0, _ => []
  | fuel + 1, page =>
    if (env.listIssues page).length = 0 then [(env.listIssues page).length]
    else (env.listIssues page).length :: issuesPagesTrace env fuel (page + 1)

/-- The issues the loop processes: the since-filtered contents of each
fetched non-empty page, in order. -/
def issuesProcessed (env : Env) (sinceDate : Option Int) : Nat → Nat → List Issue
  | 0, _ => []
  | fuel + 1, page =>
    if (env.listIssues page).length = 0 then []
    else sinceFilterIssues sinceDate (env.listIssues page) ++
      issuesProcessed env sinceDate fuel (page + 1)

/-- `Map.set` key evolution, iterated: insert each number unless present. -/
def insertKeys (ks ns : List Nat) : List Nat :=
  ns.foldl (fun ks n => if n ∈ ks then ks else ks ++ [n]) ks

theorem publishStatusEvents_chars (env : Env) :
    ∀ (l : List NostrEvent) (ctx : Ctx),
    ((publishStatusEvents env ctx l).1).sinceDate = ctx.sinceDate ∧
    ((publishStatusEvents env ctx l).1).issueEventIdMap = ctx.issueEventIdMap ∧
    ((publishStatusEvents env ctx l).1).issuesPublished = ctx.issuesPublished ∧
    ((publishStatusEvents env ctx l).1).progressCurrents = ctx.progressCurrents := by
  intro l
  induction l with
  | nil => intro ctx; exact ⟨rfl, rfl, rfl, rfl⟩
  | cons s rest ih =>
    intro ctx
    unfold publishStatusEvents
    by_cases h : ctx.hasSignEvent = true
    · rw [if_pos h]
      dsimp only
      obtain ⟨g1, g2, g3, g4⟩ := ih
        { publishEventBatched (recordPipelineEvent ctx (signByUser ctx s)) (signByUser ctx s) with
          currentTimestamp :=
            (publishEventBatched (recordPipelineEvent ctx (signByUser ctx s))
              (signByUser ctx s)).currentTimestamp + 1
          statusEventsPublished :=
            (publishEventBatched (recordPipelineEvent ctx (signByUser ctx s))
              (signByUser ctx s)).statusEventsPublished + 1 }
      exact ⟨g1.trans (by simp), g2.trans (by simp), g3.trans (by simp), g4.trans (by simp)⟩
    · rw [if_neg h]
      by_cases hio : ctx.hasEventIo = true
      · rw [if_pos hio]
        by_cases hok : env.eventIOOk = true
        · rw [if_neg (by simp [hok])]
          dsimp only
          obtain ⟨g1, g2, g3, g4⟩ := ih
            { recordPipelineEvent ctx (signByUser ctx s) with
              published := (recordPipelineEvent ctx (signByUser ctx s)).published ++
                [signByUser ctx s]
              currentTimestamp :=
                (recordPipelineEvent ctx (signByUser ctx s)).currentTimestamp + 1
              statusEventsPublished :=
                (recordPipelineEvent ctx (signByUser ctx s)).statusEventsPublished + 1 }
          exact ⟨g1.trans (by simp), g2.trans (by simp), g3.trans (by simp), g4.trans (by simp)⟩
        · rw [if_pos (by simp [Bool.eq_false_iff.mpr hok])]
          exact ⟨rfl, rfl, rfl, rfl⟩
      · rw [if_neg hio]
        exact ⟨rfl, rfl, rfl, rfl⟩

theorem issueCore_chars (env : Env) (ctx : Ctx) (issue : Issue) :
    ((issueCore env ctx issue).1).sinceDate = ctx.sinceDate ∧
    ((issueCore env ctx issue).1).issuesPublished = ctx.issuesPublished + 1 ∧
    ((issueCore env ctx issue).1).progressCurrents = ctx.progressCurrents ∧
    ((issueCore env ctx issue).1).issueEventIdMap.map Prod.fst =
      (if issue.number ∈ ctx.issueEventIdMap.map Prod.fst then
        ctx.issueEventIdMap.map Prod.fst
      else ctx.issueEventIdMap.map Prod.fst ++ [issue.number]) := by
  refine ⟨by unfold issueCore; dsimp only; simp,
          by unfold issueCore; dsimp only; simp,
          by unfold issueCore; dsimp only; simp, ?_⟩
  have hmap : ((issueCore env ctx issue).1).issueEventIdMap =
      mSet ctx.issueEventIdMap issue.number (issueCore env ctx issue).2.id := by
    unfold issueCore
    dsimp only
    simp
  rw [hmap]
  by_cases h : mHas ctx.issueEventIdMap issue.number = true
  · rw [mSet_keys_stale _ h, if_pos ((mHas_true_iff_mem _ _).mp h)]
  · have hf := Bool.eq_false_iff.mpr h
    rw [mSet_keys_fresh _ hf, if_neg (fun hm => h ((mHas_true_iff_mem _ _).mpr hm))]

theorem processIssue_chars (env : Env) (ctx : Ctx) (issue : Issue)
    (hs : ctx.hasSignEvent = true) :
    ((processIssue env ctx issue).1).sinceDate = ctx.sinceDate ∧
    ((processIssue env ctx issue).1).issuesPublished = ctx.issuesPublished + 1 ∧
    ((processIssue env ctx issue).1).issueEventIdMap.map Prod.fst =
      (if issue.number ∈ ctx.issueEventIdMap.map Prod.fst then
        ctx.issueEventIdMap.map Prod.fst
      else ctx.issueEventIdMap.map Prod.fst ++ [issue.number]) ∧
    ((processIssue env ctx issue).1).progressCurrents =
      ctx.progressCurrents ++ [some (ctx.issuesPublished + 1)] := by
  obtain ⟨hc1, hc2, hc3, hc4⟩ := issueCore_chars env ctx issue
  have hst := publishStatusEvents_chars env
    (convertIssueStatusEvents env (issueCore env ctx issue).1 (issueCore env ctx issue).2.id issue)
    (issueCore env ctx issue).1
  have hno := processIssue_noerr env ctx issue hs
  unfold processIssue at *
  dsimp only at *
  split at hno
  case h_1 ctx1 e heq =>
    exact absurd hno.1 (by simp)
  case h_2 ctx1 heq =>
    rw [heq] at hst
    dsimp only at hst
    simp only [progress_apply]
    refine ⟨by rw [hst.1, hc1], by rw [hst.2.2.1, hc2], by rw [hst.2.1, hc4], ?_⟩
    rw [hst.2.2.2, hc3, hst.2.2.1, hc2]

theorem insertKeys_cons (ks : List Nat) (n : Nat) (ns : List Nat) :
    insertKeys ks (n :: ns) = insertKeys (if n ∈ ks then ks else ks ++ [n]) ns := rfl

theorem processIssues_chars (env : Env) :
    ∀ (l : List Issue) (ctx : Ctx), ctx.hasSignEvent = true →
    ((processIssues env ctx l).1).hasSignEvent = true ∧
    ((processIssues env ctx l).1).sinceDate = ctx.sinceDate ∧
    ((processIssues env ctx l).1).issuesPublished = ctx.issuesPublished + l.length ∧
    ((processIssues env ctx l).1).issueEventIdMap.map Prod.fst =
      insertKeys (ctx.issueEventIdMap.map Prod.fst) (l.map Issue.number) ∧
    (∃ tl, ((processIssues env ctx l).1).progressCurrents = ctx.progressCurrents ++ tl) ∧
    (l ≠ [] → some (ctx.issuesPublished + l.length) ∈
      ((processIssues env ctx l).1).progressCurrents) := by
  intro l
  induction l with
  | nil =>
    intro ctx hs
    exact ⟨hs, rfl, by simp [processIssues], by simp [processIssues, insertKeys],
      ⟨[], by simp [processIssues]⟩, fun h => absurd rfl h⟩
  | cons i rest ih =>
    intro ctx hs
    have hno := processIssue_noerr env ctx i hs
    have hch := processIssue_chars env ctx i hs
    unfold processIssues
    split
    case h_1 ctx1 e heq =>
      exfalso
      rw [heq] at hno
      exact Option.noConfusion hno.1
    case h_2 ctx1 heq =>
      rw [heq] at hno hch
      dsimp only at hno hch
      obtain ⟨g1, g2, g3, g4, ⟨tl2, g5⟩, g6⟩ := ih ctx1 hno.2.1
      refine ⟨g1, g2.trans hch.1, ?_, ?_, ?_, ?_⟩
      · rw [g3, hch.2.1]
        simp only [List.length_cons]
        omega
      · rw [g4, hch.2.2.1, List.map_cons, insertKeys_cons]
      · exact ⟨(some (ctx.issuesPublished + 1) :: tl2), by
          rw [g5, hch.2.2.2]
          simp⟩
      · intro _
        by_cases hrest : rest = []
        · subst hrest
          have : (processIssues env ctx1 ([] : List Issue)).1 = ctx1 := rfl
          rw [this]
          rw [hch.2.2.2]
          simp
        · have hmem := g6 hrest
          rw [hch.2.1] at hmem
          have harith : ctx.issuesPublished + 1 + rest.length =
              ctx.issuesPublished + (i :: rest).length := by
            simp only [List.length_cons]
            omega
          rw [harith] at hmem
          exact hmem

theorem issuesLoop_chars (env : Env) :
    ∀ (fuel page : Nat) (ctx : Ctx), ctx.hasSignEvent = true →
    (issuesLoop env fuel page ctx).2 = none ∧
    ((issuesLoop env fuel page ctx).1).hasSignEvent = true ∧
    ((issuesLoop env fuel page ctx).1).sinceDate = ctx.sinceDate ∧
    ((issuesLoop env fuel page ctx).1).fetchedIssuePages =
      ctx.fetchedIssuePages ++ issuesPagesTrace env fuel page ∧
    ((issuesLoop env fuel page ctx).1).issuesPublished =
      ctx.issuesPublished + (issuesProcessed env ctx.sinceDate fuel page).length ∧
    ((issuesLoop env fuel page ctx).1).issueEventIdMap.map Prod.fst =
      insertKeys (ctx.issueEventIdMap.map Prod.fst)
        ((issuesProcessed env ctx.sinceDate fuel page).map Issue.number) ∧
    (∃ tl, ((issuesLoop env fuel page ctx).1).progressCurrents =
      ctx.progressCurrents ++ tl) ∧
    (issuesProcessed env ctx.sinceDate fuel page ≠ [] →
      some (ctx.issuesPublished + (issuesProcessed env ctx.sinceDate fuel page).length) ∈
        ((issuesLoop env fuel page ctx).1).progressCurrents) := by
  intro fuel
  induction fuel with
  | zero =>
    intro page ctx hs
    exact ⟨rfl, hs, rfl, by simp [issuesLoop, issuesPagesTrace],
      by simp [issuesLoop, issuesProcessed],
      by simp [issuesLoop, issuesProcessed, insertKeys],
      ⟨[], by simp [issuesLoop]⟩,
      by simp [issuesProcessed]⟩
  | succ fuel ih =>
    intro page ctx hs
    unfold issuesLoop issuesPagesTrace issuesProcessed
    dsimp only
    by_cases hemp : (env.listIssues page).length = 0
    · rw [if_pos hemp, if_pos hemp, if_pos hemp]
      exact ⟨rfl, hs, rfl, rfl, by simp, by simp [insertKeys], ⟨[], by simp⟩,
        fun h => absurd rfl h⟩
    · rw [if_neg hemp, if_neg hemp, if_neg hemp]
      have hpc := processIssues_chars env
        (sinceFilterIssues ctx.sinceDate (env.listIssues page))
        { ctx with fetchedIssuePages :=
            ctx.fetchedIssuePages ++ [(env.listIssues page).length] }
        (by simpa using hs)
      have hpn := processIssues_noerr env
        (sinceFilterIssues ctx.sinceDate (env.listIssues page))
        { ctx with fetchedIssuePages :=
            ctx.fetchedIssuePages ++ [(env.listIssues page).length] }
        (by simpa using hs)
      split
      next ctx1 e heq =>
        exfalso
        rw [heq] at hpn
        exact Option.noConfusion hpn.1
      next ctx1 heq =>
        rw [heq] at hpc hpn
        dsimp only at hpc hpn
        obtain ⟨p1, p2, p3, p4, ⟨tlp, p5⟩, p6⟩ := hpc
        obtain ⟨q1, q2, q3⟩ := hpn
        obtain ⟨r1, r2, r3, r4, r5, r6, ⟨tlr, r7⟩, r8⟩ := ih (page + 1) ctx1 p1
        have hsd : ctx1.sinceDate = ctx.sinceDate := p2
        refine ⟨r1, r2, r3.trans hsd, ?_, ?_, ?_, ?_, ?_⟩
        · rw [r4, q3]
          simp
        · rw [r5, hsd, p3]
          simp only [List.length_append]
          omega
        · rw [r6, hsd, p4]
          unfold insertKeys
          rw [List.map_append, List.foldl_append]
        · refine ⟨tlp ++ tlr, ?_⟩
          rw [r7, p5]
          simp
        · intro hne
          by_cases hrec : issuesProcessed env ctx.sinceDate fuel (page + 1) = []
          · have hfil : sinceFilterIssues ctx.sinceDate (env.listIssues page) ≠ [] := by
              intro hh
              exact hne (by rw [hh, hrec]; rfl)
            have hmem := p6 hfil
            rw [hrec, r7]
            simp only [List.append_nil, List.length_append, List.length_nil, Nat.add_zero]
            exact List.mem_append_left _ (by simpa using hmem)
          · rw [hsd] at r8
            have hmem := r8 hrec
            rw [p3] at hmem
            have harith : ctx.issuesPublished +
                (sinceFilterIssues ctx.sinceDate (env.listIssues page)).length +
                (issuesProcessed env ctx.sinceDate fuel (page + 1)).length =
                ctx.issuesPublished +
                (sinceFilterIssues ctx.sinceDate (env.listIssues page) ++
                  issuesProcessed env ctx.sinceDate fuel (page + 1)).length := by
              simp only [List.length_append]
              omega
            rw [harith] at hmem
            exact hmem

theorem fetchIssues_chars (env : Env) (fuel : Nat) (ctx : Ctx)
    (hs : ctx.hasSignEvent = true) :
    (fetchAndPublishIssuesStreaming env fuel ctx).2 = none ∧
    ((fetchAndPublishIssuesStreaming env fuel ctx).1).fetchedIssuePages =
      ctx.fetchedIssuePages ++ issuesPagesTrace env fuel 1 ∧
    ((fetchAndPublishIssuesStreaming env fuel ctx).1).issueEventIdMap.map Prod.fst =
      insertKeys (ctx.issueEventIdMap.map Prod.fst)
        ((issuesProcessed env ctx.sinceDate fuel 1).map Issue.number) ∧
    ((fetchAndPublishIssuesStreaming env fuel ctx).1).issuesPublished =
      ctx.issuesPublished + (issuesProcessed env ctx.sinceDate fuel 1).length ∧
    (issuesProcessed env ctx.sinceDate fuel 1 ≠ [] →
      some (ctx.issuesPublished + (issuesProcessed env ctx.sinceDate fuel 1).length) ∈
        ((fetchAndPublishIssuesStreaming env fuel ctx).1).progressCurrents) := by
  have hl := issuesLoop_chars env fuel 1 (progress ctx none) (by simpa using hs)
  unfold fetchAndPublishIssuesStreaming
  dsimp only
  split
  next ctx1 e heq =>
    exfalso
    rw [heq] at hl
    exact Option.noConfusion hl.1
  next ctx1 heq =>
    rw [heq] at hl
    dsimp only at hl
    obtain ⟨_, _, _, h4, h5, h6, ⟨tl, h7⟩, h8⟩ := hl
    simp only [progress_apply] at h4 h5 h6 h7 h8
    refine ⟨rfl, by simp only [flushEQ_fetchedIssuePages]; exact h4,
      by simp only [flushEQ_issueEventIdMap]; exact h6,
      by simp only [flushEQ_issuesPublished]; exact h5, ?_⟩
    intro hne
    have hmem := h8 hne
    simp only [flushEQ_progressCurrents]
    exact hmem

theorem publishProfileEvents_fields (ctx : Ctx) :
    (publishProfileEvents ctx).fetchedIssuePages = ctx.fetchedIssuePages ∧
    (publishProfileEvents ctx).issueEventIdMap = ctx.issueEventIdMap ∧
    (publishProfileEvents ctx).issuesPublished = ctx.issuesPublished ∧
    ∃ tl, (publishProfileEvents ctx).progressCurrents = ctx.progressCurrents ++ tl := by
  have haux : ∀ (l : List (String × NostrEvent)) (acc : Ctx × Nat),
      ((l.foldl (fun (acc : Ctx × Nat) kv =>
        let n := acc.2 + 1
        let c := progress acc.1 (some n)
        (publishEventBatched c kv.2, n)) acc).1).fetchedIssuePages =
          acc.1.fetchedIssuePages ∧
      ((l.foldl (fun (acc : Ctx × Nat) kv =>
        let n := acc.2 + 1
        let c := progress acc.1 (some n)
        (publishEventBatched c kv.2, n)) acc).1).issueEventIdMap = acc.1.issueEventIdMap ∧
      ((l.foldl (fun (acc : Ctx × Nat) kv =>
        let n := acc.2 + 1
        let c := progress acc.1 (some n)
        (publishEventBatched c kv.2, n)) acc).1).issuesPublished = acc.1.issuesPublished ∧
      ∃ tl, ((l.foldl (fun (acc : Ctx × Nat) kv =>
        let n := acc.2 + 1
        let c := progress acc.1 (some n)
        (publishEventBatched c kv.2, n)) acc).1).progressCurrents =
          acc.1.progressCurrents ++ tl := by
    intro l
    induction l with
    | nil => intro acc; exact ⟨rfl, rfl, rfl, [], by simp⟩
    | cons kv rest ih =>
      intro acc
      rw [List.foldl_cons]
      obtain ⟨g1, g2, g3, tl2, g4⟩ := ih
        (publishEventBatched (progress acc.1 (some (acc.2 + 1))) kv.2, acc.2 + 1)
      refine ⟨g1.trans (by simp), g2.trans (by simp), g3.trans (by simp),
        some (acc.2 + 1) :: tl2, ?_⟩
      rw [g4]
      simp
  obtain ⟨h1, h2, h3, tl, h4⟩ := haux ctx.profileEvents (progress ctx none, 0)
  unfold publishProfileEvents
  refine ⟨h1.trans (by simp), h2.trans (by simp), h3.trans (by simp),
    none :: tl, ?_⟩
  rw [h4]
  simp

theorem importRepository_issuesOnly (env : Env) (cfg : Cfg) (fuel : Nat)
    (ht : isBlank cfg.token = false) (hv : env.tokenValid = true)
    (hr : env.tokenHasRead = true) (ho : env.isOwner = true)
    (hrel : cfg.relays ≠ []) (hs : cfg.hasSignEvent = true)
    (hp : cfg.hasPublishEvent = true) (hmi : cfg.mirrorIssues = true)
    (hmp : cfg.mirrorPullRequests = false) (hmc : cfg.mirrorComments = false) :
    importOk (importRepository env cfg fuel) = true ∧
    (importRepository env cfg fuel).2.fetchedIssuePages = issuesPagesTrace env fuel 1 ∧
    (importRepository env cfg fuel).2.issueEventIdMap.map Prod.fst =
      insertKeys [] ((issuesProcessed env cfg.sinceDate fuel 1).map Issue.number) ∧
    (importRepository env cfg fuel).2.issuesPublished =
      (issuesProcessed env cfg.sinceDate fuel 1).length ∧
    (issuesProcessed env cfg.sinceDate fuel 1 ≠ [] →
      some (issuesProcessed env cfg.sinceDate fuel 1).length ∈
        (importRepository env cfg fuel).2.progressCurrents) := by
  unfold importRepository
  dsimp only
  rw [ht, hv, hr]
  simp only [Bool.false_eq_true, if_false, Bool.not_true, Bool.not_false, if_true]
  have hfork : (!env.isOwner && !cfg.forkRepoCfg) = false := by simp [ho]
  rw [hfork]
  simp only [Bool.false_eq_true, if_false, ho, if_true, hmi]
  split
  next e heq =>
    exfalso
    simp only [convertRepoEvents, initCtx] at heq
    rw [if_neg hrel] at heq
    cases heq
  next ann state heq =>
    split
    next e heq2 =>
      exfalso
      simp only [publishRepoEvents, initCtx, hs, hp, if_true] at heq2
      cases heq2
    next ctx2 sAnn sState heq2 =>
      simp only [publishRepoEvents, initCtx, hs, hp, if_true, Except.ok.injEq,
        Prod.mk.injEq] at heq2
      obtain ⟨hc2, -, -⟩ := heq2
      have hchars := fetchIssues_chars env fuel ctx2 (by rw [← hc2])
      split
      next ctx3 e heq3 =>
        exfalso
        rw [heq3] at hchars
        exact Option.noConfusion hchars.1
      next ctx3 heq3 =>
        rw [heq3] at hchars
        dsimp only at hchars
        obtain ⟨-, h4, h6, h5, h8⟩ := hchars
        rw [← hc2] at h4 h6 h5 h8
        dsimp only at h4 h6 h5 h8
        rw [hmp, hmc]
        simp only [Bool.false_eq_true, if_false]
        obtain ⟨p1, p2, p3, tlp, p4⟩ := publishProfileEvents_fields ctx3
        refine ⟨rfl, ?_, ?_, ?_, ?_⟩
        · simp only [progress_apply, flushEQ_fetchedIssuePages, p1, h4, List.nil_append]
        · simp only [progress_apply, flushEQ_issueEventIdMap, p2, h6, List.map_nil]
        · simp only [progress_apply, flushEQ_issuesPublished, p3, h5, Nat.zero_add]
        · intro hne
          have hmem := h8 hne
          rw [Nat.zero_add] at hmem
          simp only [progress_apply, flushEQ_progressCurrents, p4]
          exact List.mem_append_left _ (List.mem_append_left _ hmem)

/-- The 250-issue repository of the C2 scenario, numbered 1..250. -/
def issuesC2 : List Issue :=
  (List.range 250).map (fun i => { number := i + 1, authorLogin := "a" })

/-- Provider behaviour for the C2 scenario: pages of 100 issues. -/
def envC2 : Env :=
  { listIssues := fun page => (issuesC2.drop ((page - 1) * 100)).take 100 }

/-- Hook options for the C2 scenario: mirror issues only, no since-date. -/
def cfgC2 : Cfg := { mirrorIssues := true }

/-- Counterexample for C2 as stated: with 250 issues, page size 100 and no
since-date, the issues loop fetches FOUR pages (100, 100, 50, and a final
empty page), not exactly three — the loop breaks only after observing an
empty raw page. -/
theorem issues_pagination_counterexample :
    (importRepository envC2 cfgC2 10).2.fetchedIssuePages = [100, 100, 50, 0] ∧
    (importRepository envC2 cfgC2 10).2.fetchedIssuePages.length ≠ 3 := by
  have h := importRepository_issuesOnly envC2 cfgC2 10 rfl rfl rfl rfl
    (by decide) rfl rfl rfl rfl rfl
  have htr : issuesPagesTrace envC2 10 1 = [100, 100, 50, 0] := by decide
  refine ⟨h.2.1.trans htr, ?_⟩
  rw [h.2.1.trans htr]
  decide

set_option maxRecDepth 40000 in
/-- C2 (amended): for the 250-issue, page-size-100, no-since-date import,
the issues pipeline fetches four pages of 100, 100, 50 and 0 items (the
final empty page is what stops the loop), the issue ID map ends with
exactly 250 entries, progress notifications reach the current value 250,
and the import completes successfully. -/
theorem issues_pagination_amended :
    importOk (importRepository envC2 cfgC2 10) = true ∧
    (importRepository envC2 cfgC2 10).2.fetchedIssuePages = [100, 100, 50, 0] ∧
    (importRepository envC2 cfgC2 10).2.issueEventIdMap.length = 250 ∧
    some 250 ∈ (importRepository envC2 cfgC2 10).2.progressCurrents := by
  have h := importRepository_issuesOnly envC2 cfgC2 10 rfl rfl rfl rfl
    (by decide) rfl rfl rfl rfl rfl
  obtain ⟨h1, h2, h3, h4, h5⟩ := h
  have htr : issuesPagesTrace envC2 10 1 = [100, 100, 50, 0] := by decide
  have hlen : (issuesProcessed envC2 cfgC2.sinceDate 10 1).length = 250 := by decide
  have hkeys :
      (insertKeys [] ((issuesProcessed envC2 cfgC2.sinceDate 10 1).map Issue.number)).length
        = 250 := by decide
  have hne : issuesProcessed envC2 cfgC2.sinceDate 10 1 ≠ [] := by
    intro hh
    rw [hh] at hlen
    simp at hlen
  refine ⟨h1, h2.trans htr, ?_, ?_⟩
  · have := congrArg List.length h3
    rw [List.length_map] at this
    rw [this, hkeys]
  · have := h5 hne
    rw [hlen] at this
    exact this

/-! ## The logical-timestamp invariant (C1) -/

/-- The consecutive counter values `t, t+1, ..., t+n-1`. -/
def ticks (t : Int) : Nat → List Int
  | 0 => []
  | n + 1 => t :: ticks (t + 1) n

theorem ticks_length (t : Int) (n : Nat) : (ticks t n).length = n := by
  induction n generalizing t with
  | zero => rfl
  | succ n ih => simp [ticks, ih]

theorem ticks_snoc (t : Int) (n : Nat) :
    ticks t (n + 1) = ticks t n ++ [t + n] := by
  induction n generalizing t with
  | zero => simp [ticks]
  | succ n ih =>
    rw [ticks, ih, ticks]
    simp only [List.cons_append, List.cons.injEq, true_and]
    congr 2
    push_cast
    ring

theorem ticks_mem_ge (t : Int) (n : Nat) : ∀ x ∈ ticks t n, t ≤ x := by
  induction n generalizing t with
  | zero => intro x hx; cases hx
  | succ n ih =>
    intro x hx
    rcases List.mem_cons.mp hx with h | h
    · omega
    · have := ih (t + 1) x h
      omega

theorem ticks_pairwise (t : Int) (n : Nat) :
    List.Pairwise (fun a b => a < b) (ticks t n) := by
  induction n generalizing t with
  | zero => exact List.Pairwise.nil
  | succ n ih =>
    rw [ticks]
    refine List.pairwise_cons.mpr ⟨?_, ih (t + 1)⟩
    intro x hx
    have := ticks_mem_ge (t + 1) n x hx
    omega

/-- The logical-timestamp invariant relative to the seed `t`: the recorded
pipeline events carry exactly the consecutive counter values starting at `t`,
and the counter stands one past the last value handed out. -/
def TsInv (t : Int) (ctx : Ctx) : Prop :=
  ctx.startTimestamp = t ∧
  ctx.pipelineEvents.map NostrEvent.created_at = ticks t ctx.pipelineEvents.length ∧
  ctx.currentTimestamp = t + ctx.pipelineEvents.length

theorem tsInv_of_eq {t : Int} {a b : Ctx} (h : TsInv t a)
    (h1 : b.startTimestamp = a.startTimestamp)
    (h2 : b.pipelineEvents = a.pipelineEvents)
    (h3 : b.currentTimestamp = a.currentTimestamp) : TsInv t b := by
  obtain ⟨i1, i2, i3⟩ := h
  exact ⟨h1.trans i1, by rw [h2]; exact i2, by rw [h3, h2]; exact i3⟩

theorem tsInv_step {t : Int} {a b : Ctx} (h : TsInv t a)
    (h1 : b.startTimestamp = a.startTimestamp)
    (h2 : b.pipelineEvents.map NostrEvent.created_at =
      a.pipelineEvents.map NostrEvent.created_at ++ [a.currentTimestamp])
    (h3 : b.currentTimestamp = a.currentTimestamp + 1) : TsInv t b := by
  obtain ⟨i1, i2, i3⟩ := h
  have hlen : b.pipelineEvents.length = a.pipelineEvents.length + 1 := by
    have := congrArg List.length h2
    simpa using this
  refine ⟨h1.trans i1, ?_, ?_⟩
  · rw [h2, i2, hlen, ticks_snoc, i3]
  · rw [h3, i3, hlen]
    push_cast
    ring

@[simp] theorem signEventM_created_at (e : NostrEvent) (k : String) :
    (signEventM e k).created_at = e.created_at := rfl

@[simp] theorem signByUser_created_at (ctx : Ctx) (e : NostrEvent) :
    (signByUser ctx e).created_at = e.created_at := rfl

@[simp] theorem addBridgedPTags_created_at (e : NostrEvent) (p u : String)
    (b : List (String × String)) :
    (addBridgedPTags e p u b).created_at = e.created_at := by
  unfold addBridgedPTags
  split
  · rfl
  · split <;> rfl

@[simp] theorem convertIssueEvent_created_at (ctx : Ctx) (issue : Issue) :
    (convertIssueEvent ctx issue).1.created_at = ctx.currentTimestamp := rfl

@[simp] theorem convertPullRequestEvent_created_at (ctx : Ctx) (pr : PullRequest)
    (commits : List String) :
    (convertPullRequestEvent ctx pr commits).1.created_at = ctx.currentTimestamp := rfl

@[simp] theorem convertCommentEvent_created_at (ctx : Ctx) (pid a c : String) :
    (convertCommentEvent ctx pid a c).1.created_at = ctx.currentTimestamp := rfl

/-- The status templates for one issue carry exactly the consecutive counter
values starting at the base passed at the call site. -/
theorem statusTemplates_map (issueEventId state repoAddr : String) :
    ∀ (n : Nat) (base : Int),
    (statusTemplates base issueEventId state repoAddr n).map NostrEvent.created_at =
      ticks base n := by
  intro n
  induction n with
  | zero => intro base; rfl
  | succ n ih =>
    intro base
    rw [statusTemplates, ticks, List.map_cons, ih (base + 1)]

theorem statusTemplates_length (issueEventId state repoAddr : String) :
    ∀ (n : Nat) (base : Int),
    (statusTemplates base issueEventId state repoAddr n).length = n := by
  intro n
  induction n with
  | zero => intro base; rfl
  | succ n ih => intro base; rw [statusTemplates]; simp [ih (base + 1)]

theorem publishStatusEvents_tsInv (env : Env) (t : Int) :
    ∀ (l : List NostrEvent) (ctx : Ctx), TsInv t ctx →
    l.map NostrEvent.created_at = ticks ctx.currentTimestamp l.length →
    TsInv t (publishStatusEvents env ctx l).1 := by
  intro l
  induction l with
  | nil => intro ctx h _; exact h
  | cons s rest ih =>
    intro ctx h halign
    rw [List.length_cons, List.map_cons, ticks] at halign
    injection halign with hhead htail
    unfold publishStatusEvents
    by_cases hs : ctx.hasSignEvent = true
    · rw [if_pos hs]
      dsimp only
      refine ih _ (tsInv_step h (by simp) (by simp [hhead]) (by simp)) ?_
      rw [htail]
      congr 1 <;> simp
    · rw [if_neg hs]
      by_cases hio : ctx.hasEventIo = true
      · rw [if_pos hio]
        by_cases hok : env.eventIOOk = true
        · rw [if_neg (by simp [hok])]
          dsimp only
          refine ih _ (tsInv_step h (by simp) (by simp [hhead]) (by simp)) ?_
          rw [htail]
          congr 1 <;> simp
        · rw [if_pos (by simp [Bool.eq_false_iff.mpr hok])]
          exact h
      · rw [if_neg hio]
        exact h

theorem issueCore_tsInv (env : Env) (issue : Issue) {t : Int} {ctx : Ctx}
    (h : TsInv t ctx) : TsInv t (issueCore env ctx issue).1 := by
  have hens : TsInv t (ensureUserProfile env ctx issue.authorLogin issue.authorAvatarUrl) :=
    tsInv_of_eq h (by simp) (by simp) (by simp)
  unfold issueCore
  dsimp only
  exact tsInv_step hens (by simp) (by simp) (by simp)

theorem processIssue_tsInv (env : Env) (issue : Issue) {t : Int} {ctx : Ctx}
    (h : TsInv t ctx) : TsInv t (processIssue env ctx issue).1 := by
  have hcore := issueCore_tsInv env issue h
  have halign : (convertIssueStatusEvents env (issueCore env ctx issue).1
        (issueCore env ctx issue).2.id issue).map NostrEvent.created_at =
      ticks (issueCore env ctx issue).1.currentTimestamp
        (convertIssueStatusEvents env (issueCore env ctx issue).1
          (issueCore env ctx issue).2.id issue).length := by
    unfold convertIssueStatusEvents
    rw [statusTemplates_length, statusTemplates_map]
  have hst := publishStatusEvents_tsInv env t _ _ hcore halign
  unfold processIssue
  dsimp only
  split
  next ctx1 e heq =>
    rw [heq] at hst
    exact hst
  next ctx1 heq =>
    rw [heq] at hst
    dsimp only at hst
    exact tsInv_of_eq hst (by simp) (by simp) (by simp)

theorem processIssues_tsInv (env : Env) :
    ∀ (l : List Issue) {t : Int} {ctx : Ctx}, TsInv t ctx →
    TsInv t (processIssues env ctx l).1 := by
  intro l
  induction l with
  | nil => intro t ctx h; exact h
  | cons i rest ih =>
    intro t ctx h
    have hp := processIssue_tsInv env i h
    unfold processIssues
    split
    next ctx1 e heq =>
      rw [heq] at hp
      exact hp
    next ctx1 heq =>
      rw [heq] at hp
      dsimp only at hp
      exact ih hp

theorem issuesLoop_tsInv (env : Env) :
    ∀ (fuel page : Nat) {t : Int} {ctx : Ctx}, TsInv t ctx →
    TsInv t (issuesLoop env fuel page ctx).1 := by
  intro fuel
  induction fuel with
  | zero => intro page t ctx h; exact h
  | succ fuel ih =>
    intro page t ctx h
    unfold issuesLoop
    dsimp only
    split
    · exact tsInv_of_eq h (by simp) (by simp) (by simp)
    · have hp := processIssues_tsInv env
        (sinceFilterIssues ctx.sinceDate (env.listIssues page))
        (tsInv_of_eq h (by simp) (by simp) (by simp) :
          TsInv t { ctx with
            fetchedIssuePages := ctx.fetchedIssuePages ++ [(env.listIssues page).length] })
      split
      next ctx1 e heq =>
        rw [heq] at hp
        exact hp
      next ctx1 heq =>
        rw [heq] at hp
        dsimp only at hp
        exact ih (page + 1) hp

theorem fetchIssues_tsInv (env : Env) (fuel : Nat) {t : Int} {ctx : Ctx}
    (h : TsInv t ctx) : TsInv t (fetchAndPublishIssuesStreaming env fuel ctx).1 := by
  have hl := issuesLoop_tsInv env fuel 1
    (tsInv_of_eq h (by simp) (by simp) (by simp) : TsInv t (progress ctx none))
  unfold fetchAndPublishIssuesStreaming
  dsimp only
  split
  next ctx1 e heq =>
    rw [heq] at hl
    exact hl
  next ctx1 heq =>
    rw [heq] at hl
    dsimp only at hl
    exact tsInv_of_eq hl (by simp) (by simp) (by simp)

theorem processPR_tsInv (env : Env) (fuel : Nat) (pr : PullRequest) {t : Int}
    {ctx : Ctx} (h : TsInv t ctx) : TsInv t (processPR env fuel ctx pr) := by
  have hens : TsInv t (ensureUserProfile env ctx pr.authorLogin pr.authorAvatarUrl) :=
    tsInv_of_eq h (by simp) (by simp) (by simp)
  unfold processPR
  dsimp only
  exact tsInv_step hens (by simp) (by simp) (by simp)

theorem processPRs_tsInv (env : Env) (fuel : Nat) :
    ∀ (l : List PullRequest) {t : Int} {ctx : Ctx}, TsInv t ctx →
    TsInv t (processPRs env fuel ctx l) := by
  intro l
  induction l with
  | nil => intro t ctx h; exact h
  | cons pr rest ih =>
    intro t ctx h
    unfold processPRs
    exact ih (processPR_tsInv env fuel pr h)

theorem prsLoop_tsInv (env : Env) :
    ∀ (fuel page : Nat) {t : Int} {ctx : Ctx}, TsInv t ctx →
    TsInv t (prsLoop env fuel page ctx) := by
  intro fuel
  induction fuel with
  | zero => intro page t ctx h; exact h
  | succ fuel ih =>
    intro page t ctx h
    unfold prsLoop
    dsimp only
    split
    · exact tsInv_of_eq h (by simp) (by simp) (by simp)
    · have hp := processPRs_tsInv env fuel
        (sinceFilterPRs ctx.sinceDate (env.listPRs page))
        (tsInv_of_eq h (by simp) (by simp) (by simp) :
          TsInv t { ctx with
            fetchedPrPages := ctx.fetchedPrPages ++ [(env.listPRs page).length] })
      split
      · exact hp
      · exact ih (page + 1) hp

theorem fetchPRs_tsInv (env : Env) (fuel : Nat) {t : Int} {ctx : Ctx}
    (h : TsInv t ctx) : TsInv t (fetchAndPublishPRsStreaming env fuel ctx) := by
  have hl := prsLoop_tsInv env fuel 1
    (tsInv_of_eq h (by simp) (by simp) (by simp) : TsInv t (progress ctx none))
  unfold fetchAndPublishPRsStreaming
  dsimp only
  exact tsInv_of_eq hl (by simp) (by simp) (by simp)

theorem publishOneComment_tsInv (env : Env) (cmap : CMap)
    (pid authorLogin avatarUrl cid : String) {t : Int} {ctx : Ctx}
    (h : TsInv t ctx) :
    TsInv t (publishOneComment env ctx cmap pid authorLogin avatarUrl cid).1 := by
  have hens : TsInv t (ensureUserProfile env ctx authorLogin avatarUrl) :=
    tsInv_of_eq h (by simp) (by simp) (by simp)
  unfold publishOneComment
  dsimp only
  exact tsInv_step hens (by simp) (by simp) (by simp)

theorem processBulkComment_tsInv (env : Env) (issueNumbers prNumbers : List Nat)
    (st : Ctx × CMap) (c : BulkComment) {t : Int} (h : TsInv t st.1) :
    TsInv t (processBulkComment env issueNumbers prNumbers st c).1 := by
  unfold processBulkComment
  dsimp only
  split
  · exact h
  · split
    · exact h
    · exact publishOneComment_tsInv env _ _ _ _ _
        (tsInv_of_eq h (by simp) (by simp) (by simp))

theorem processBulkComments_tsInv (env : Env) (issueNumbers prNumbers : List Nat) :
    ∀ (l : List BulkComment) (st : Ctx × CMap) {t : Int}, TsInv t st.1 →
    TsInv t (processBulkComments env issueNumbers prNumbers st l).1 := by
  intro l
  induction l with
  | nil => intro st t h; exact h
  | cons c rest ih =>
    intro st t h
    unfold processBulkComments
    exact ih _ (processBulkComment_tsInv env issueNumbers prNumbers st c h)

theorem bulkCommentsLoop_tsInv (env : Env) (issueNumbers prNumbers : List Nat) :
    ∀ (fuel page : Nat) (st : Ctx × CMap) {t : Int}, TsInv t st.1 →
    TsInv t (bulkCommentsLoop env issueNumbers prNumbers fuel page st).1 := by
  intro fuel
  induction fuel with
  | zero => intro page st t h; exact h
  | succ fuel ih =>
    intro page st t h
    unfold bulkCommentsLoop
    dsimp only
    split
    · exact tsInv_of_eq h (by simp) (by simp) (by simp)
    · have hp := processBulkComments_tsInv env issueNumbers prNumbers
        (sinceFilterBulk st.1.sinceDate (env.listAllIssueComments page))
        ({ st.1 with fetchedCommentPages :=
            st.1.fetchedCommentPages ++ [(env.listAllIssueComments page).length] }, st.2)
        (tsInv_of_eq h (by simp) (by simp) (by simp))
      split
      · exact tsInv_of_eq hp (by simp) (by simp) (by simp)
      · exact ih (page + 1) _ (tsInv_of_eq hp (by simp) (by simp) (by simp))

theorem processFallbackComment_tsInv (env : Env) (parentNumber : Nat)
    (parentEventId : String) (st : Ctx × CMap) (c : Comment) {t : Int}
    (h : TsInv t st.1) :
    TsInv t (processFallbackComment env parentNumber parentEventId st c).1 := by
  unfold processFallbackComment
  split
  · split
    · exact h
    · exact publishOneComment_tsInv env _ _ _ _ _
        (tsInv_of_eq h (by simp) (by simp) (by simp))
  · exact publishOneComment_tsInv env _ _ _ _ _
      (tsInv_of_eq h (by simp) (by simp) (by simp))

theorem foldFallback_tsInv (env : Env) (parentNumber : Nat) (parentEventId : String) :
    ∀ (l : List Comment) (st : Ctx × CMap) {t : Int}, TsInv t st.1 →
    TsInv t (l.foldl (processFallbackComment env parentNumber parentEventId) st).1 := by
  intro l
  induction l with
  | nil => intro st t h; exact h
  | cons c rest ih =>
    intro st t h
    rw [List.foldl_cons]
    exact ih _ (processFallbackComment_tsInv env parentNumber parentEventId st c h)

theorem fallbackParentLoop_tsInv (env : Env) (isPR : Bool) (parentNumber : Nat)
    (parentEventId : String) :
    ∀ (fuel page : Nat) (st : Ctx × CMap) {t : Int}, TsInv t st.1 →
    TsInv t (fallbackParentLoop env isPR parentNumber parentEventId fuel page st).1 := by
  intro fuel
  induction fuel with
  | zero => intro page st t h; exact h
  | succ fuel ih =>
    intro page st t h
    unfold fallbackParentLoop
    dsimp only
    split
    all_goals
      split
      · exact tsInv_of_eq h (by simp) (by simp) (by simp)
      · split
        · exact foldFallback_tsInv env parentNumber parentEventId _ _
            (tsInv_of_eq h (by simp) (by simp) (by simp))
        · exact ih (page + 1) _
            (foldFallback_tsInv env parentNumber parentEventId _ _
              (tsInv_of_eq h (by simp) (by simp) (by simp)))

theorem fallbackParents_tsInv (env : Env) (isPR : Bool) (fuel : Nat) :
    ∀ (ns : List Nat) {t : Int} {ctx : Ctx}, TsInv t ctx →
    TsInv t (fallbackParents env isPR fuel ctx ns) := by
  intro ns
  induction ns with
  | nil => intro t ctx h; exact h
  | cons n rest ih =>
    intro t ctx h
    unfold fallbackParents
    dsimp only
    split
    · exact ih h
    · exact ih (fallbackParentLoop_tsInv env isPR n _ fuel 1 (ctx, []) h)

theorem fetchComments_tsInv (env : Env) (fuel : Nat)
    (issueNumbers prNumbers : List Nat) {t : Int} {ctx : Ctx} (h : TsInv t ctx) :
    TsInv t (fetchAndPublishCommentsStreaming env fuel ctx issueNumbers prNumbers) := by
  unfold fetchAndPublishCommentsStreaming
  dsimp only
  split
  · exact h
  · have hpr : TsInv t (progress ctx none) :=
      tsInv_of_eq h (by simp) (by simp) (by simp)
    split
    · exact tsInv_of_eq
        (bulkCommentsLoop_tsInv env issueNumbers prNumbers fuel 1
          (progress ctx none, ([] : CMap)) hpr)
        (by simp) (by simp) (by simp)
    · exact tsInv_of_eq
        (fallbackParents_tsInv env true fuel prNumbers
          (fallbackParents_tsInv env false fuel issueNumbers hpr))
        (by simp) (by simp) (by simp)

theorem publishProfileEvents_tsFields (ctx : Ctx) :
    (publishProfileEvents ctx).startTimestamp = ctx.startTimestamp ∧
    (publishProfileEvents ctx).pipelineEvents = ctx.pipelineEvents ∧
    (publishProfileEvents ctx).currentTimestamp = ctx.currentTimestamp := by
  have haux : ∀ (l : List (String × NostrEvent)) (acc : Ctx × Nat),
      ((l.foldl (fun (acc : Ctx × Nat) kv =>
        let n := acc.2 + 1
        let c := progress acc.1 (some n)
        (publishEventBatched c kv.2, n)) acc).1).startTimestamp =
          acc.1.startTimestamp ∧
      ((l.foldl (fun (acc : Ctx × Nat) kv =>
        let n := acc.2 + 1
        let c := progress acc.1 (some n)
        (publishEventBatched c kv.2, n)) acc).1).pipelineEvents = acc.1.pipelineEvents ∧
      ((l.foldl (fun (acc : Ctx × Nat) kv =>
        let n := acc.2 + 1
        let c := progress acc.1 (some n)
        (publishEventBatched c kv.2, n)) acc).1).currentTimestamp =
          acc.1.currentTimestamp := by
    intro l
    induction l with
    | nil => intro acc; exact ⟨rfl, rfl, rfl⟩
    | cons kv rest ih =>
      intro acc
      rw [List.foldl_cons]
      obtain ⟨g1, g2, g3⟩ := ih
        (publishEventBatched (progress acc.1 (some (acc.2 + 1))) kv.2, acc.2 + 1)
      exact ⟨g1.trans (by simp), g2.trans (by simp), g3.trans (by simp)⟩
  obtain ⟨h1, h2, h3⟩ := haux ctx.profileEvents (progress ctx none, 0)
  unfold publishProfileEvents
  exact ⟨h1.trans (by simp), h2.trans (by simp), h3.trans (by simp)⟩

theorem importTail_tsInv {t : Int} {ctx : Ctx} (h : TsInv t ctx) :
    TsInv t (progress (flushEventQueue (publishProfileEvents ctx)) none) := by
  obtain ⟨p1, p2, p3⟩ := publishProfileEvents_tsFields ctx
  exact tsInv_of_eq h (by simp [p1]) (by simp [p2]) (by simp [p3])

theorem importRepository_tsInv (env : Env) (cfg : Cfg) (fuel : Nat)
    (hok : importOk (importRepository env cfg fuel) = true) :
    TsInv (cfg.importTimestamp - 3600) (importRepository env cfg fuel).2 := by
  unfold importRepository at hok ⊢
  dsimp only at hok ⊢
  split
  next h1 =>
    rw [if_pos h1] at hok
    simp [importOk] at hok
  next h1 =>
    rw [if_neg h1] at hok
    split
    next h2 =>
      rw [if_pos h2] at hok
      simp [importOk] at hok
    next h2 =>
      rw [if_neg h2] at hok
      split
      next h3 =>
        rw [if_pos h3] at hok
        simp [importOk] at hok
      next h3 =>
        rw [if_neg h3] at hok
        split
        next h4 =>
          rw [if_pos h4] at hok
          simp [importOk] at hok
        next h4 =>
          rw [if_neg h4] at hok
          split
          next e heq =>
            rw [heq] at hok
            simp [importOk] at hok
          next ann state heq =>
            rw [heq] at hok
            dsimp only at hok
            split
            next e heq2 =>
              rw [heq2] at hok
              simp [importOk] at hok
            next ctx2 sAnn sState heq2 =>
              rw [heq2] at hok
              dsimp only at hok
              simp only [publishRepoEvents, Except.ok.injEq, Prod.mk.injEq] at heq2
              have hseed : TsInv (cfg.importTimestamp - 3600) ctx2 := by
                split at heq2
                · split at heq2
                  · simp only [Except.ok.injEq, Prod.mk.injEq] at heq2
                    obtain ⟨hc2, -, -⟩ := heq2
                    rw [← hc2]
                    exact ⟨rfl, rfl, by simp [initCtx]⟩
                  · split at heq2 <;> cases heq2
                · split at heq2 <;> cases heq2
              have hiss : TsInv (cfg.importTimestamp - 3600)
                  (if cfg.mirrorIssues = true then
                    fetchAndPublishIssuesStreaming env fuel ctx2
                  else (ctx2, none)).1 := by
                split
                · exact fetchIssues_tsInv env fuel hseed
                · exact hseed
              split
              next ctx3 e heq3 =>
                rw [heq3] at hok
                simp [importOk] at hok
              next ctx3 heq3 =>
                rw [heq3] at hiss
                dsimp only at hiss
                have hpr : TsInv (cfg.importTimestamp - 3600)
                    (if cfg.mirrorPullRequests = true then
                      fetchAndPublishPRsStreaming env fuel ctx3
                    else ctx3) := by
                  split
                  · exact fetchPRs_tsInv env fuel hiss
                  · exact hiss
                refine importTail_tsInv ?_
                split
                · exact fetchComments_tsInv env fuel _ _ hpr
                · exact hpr

/-- Counterexample for C1 as stated: in a default run with no pipelines
enabled the import succeeds and publishes two events — the repository
announcement and state events — and both carry `created_at` equal to the
wall-clock `importTimestamp` (3600 here), not to counter values: they share
the same `created_at`, the counter still stands at its seed
`importTimestamp - 3600` and was never drawn from (no pipeline events). -/
theorem logical_timestamps_counterexample :
    importOk (importRepository {} {} 5) = true ∧
    (importRepository {} {} 5).2.published.map NostrEvent.created_at = [3600, 3600] ∧
    (importRepository {} {} 5).2.currentTimestamp = 0 ∧
    (importRepository {} {} 5).2.pipelineEvents = [] := by decide

/-- C1 (amended): on every successful import run the logical counter is
seeded to `importTimestamp - 3600` and governs exactly the per-item pipeline
events (issues, status events, pull requests, comments): those events carry
the consecutive counter values starting at the seed, hence strictly
increasing and pairwise distinct `created_at`s reconstructing issuance
order, and the counter ends one past the last value handed out.  The
repository announcement and state events, however, do not carry counter
values: in a default successful run both are stamped with the wall-clock
`importTimestamp` and share one `created_at` while the counter never
advances from its seed (see the counterexample). -/
theorem logical_timestamps_amended (env : Env) (cfg : Cfg) (fuel : Nat)
    (hok : importOk (importRepository env cfg fuel) = true) :
    (importRepository env cfg fuel).2.startTimestamp = cfg.importTimestamp - 3600 ∧
    (importRepository env cfg fuel).2.pipelineEvents.map NostrEvent.created_at =
      ticks (cfg.importTimestamp - 3600)
        (importRepository env cfg fuel).2.pipelineEvents.length ∧
    List.Pairwise (fun a b => a < b)
      ((importRepository env cfg fuel).2.pipelineEvents.map NostrEvent.created_at) ∧
    (importRepository env cfg fuel).2.currentTimestamp =
      cfg.importTimestamp - 3600 +
        (importRepository env cfg fuel).2.pipelineEvents.length := by
  obtain ⟨h1, h2, h3⟩ := importRepository_tsInv env cfg fuel hok
  exact ⟨h1, h2, by rw [h2]; exact ticks_pairwise _ _, h3⟩

/-- Provider behaviour for the C1 witness: a single issue on page 1. -/
def envC1 : Env :=
  { listIssues := fun page => if page = 1 then [{ number := 7, authorLogin := "a" }] else [] }

/-- Hook options for the C1 witness: mirror issues only. -/
def cfgC1 : Cfg := { mirrorIssues := true }

/-- Witness for C1's amended statement at a concrete one-issue run. -/
theorem logical_timestamps_amended_witness :
    importOk (importRepository envC1 cfgC1 5) = true ∧
    ((importRepository envC1 cfgC1 5).2.startTimestamp = cfgC1.importTimestamp - 3600 ∧
     (importRepository envC1 cfgC1 5).2.pipelineEvents.map NostrEvent.created_at =
       ticks (cfgC1.importTimestamp - 3600)
         (importRepository envC1 cfgC1 5).2.pipelineEvents.length ∧
     List.Pairwise (fun a b => a < b)
       ((importRepository envC1 cfgC1 5).2.pipelineEvents.map NostrEvent.created_at) ∧
     (importRepository envC1 cfgC1 5).2.currentTimestamp =
       cfgC1.importTimestamp - 3600 +
         (importRepository envC1 cfgC1 5).2.pipelineEvents.length) :=
  ⟨by decide, logical_timestamps_amended envC1 cfgC1 5 (by decide)⟩

end NostrGitUI
